import Mathlib

/-!
TempMail server (`server.js`): OTP extraction, mailbox fetching, polling scheduler, WebSocket hub

A shallow embedding of the functions of `server.js` and theorems about them.

JavaScript strings are sequences of UTF-16 code units; they are modelled as lists of
natural numbers (`JSString`).  `js` turns a Lean string literal into its code units.
-/

namespace TempMail

/-! ## Strings -/

/-- A JavaScript string, as its sequence of UTF-16 code units. -/
abbrev JSString := List Nat

/-- UTF-16 encoding of one Unicode scalar value. -/
def utf16 (c : Char) : List Nat :=
  if c.toNat < 0x10000 then [c.toNat]
  else [0xD800 + (c.toNat - 0x10000) / 0x400, 0xDC00 + (c.toNat - 0x10000) % 0x400]

/-- The JavaScript string written as the given literal. -/
def js (s : String) : JSString := s.toList.flatMap utf16

/-! ## Regular expressions

The six patterns of `extractOTP` are sequences of atoms: a literal character (compared
under the `i` flag), a greedily quantified character class (`\d{4,6}`, `[:\s]*`, `\d+`) and
the assertion `\b`.  `matchHere` is the backtracking matcher of ECMA-262 restricted to such
sequences: a quantified class first takes as many characters as it can and gives them back
one at a time while the rest of the pattern fails.  Only `match[0]`, the whole matched
text, is used by the source, so capture groups are not recorded. -/

/-- Class `\d`. -/
def isDigit (u : Nat) : Bool := 48 ≤ u && u ≤ 57

/-- Class `\w`: `[A-Za-z0-9_]`. -/
def isWordChar (u : Nat) : Bool :=
  isDigit u || (65 ≤ u && u ≤ 90) || (97 ≤ u && u ≤ 122) || u == 95

/-- Class `\s`: the WhiteSpace and LineTerminator code units of ECMA-262. -/
def isSpace (u : Nat) : Bool :=
  (9 ≤ u && u ≤ 13) || u == 32 || u == 0xA0 || u == 0x1680 || (0x2000 ≤ u && u ≤ 0x200A)
    || u == 0x2028 || u == 0x2029 || u == 0x202F || u == 0x205F || u == 0x3000 || u == 0xFEFF

/-- Class `[:\s]`. -/
def isColonOrSpace (u : Nat) : Bool := u == 58 || isSpace u

/-- Canonicalize of ECMA-262 for the `i` flag without the `u` flag, on the ASCII range: a
lower-case ASCII letter becomes its upper case.  A code unit of value 128 or more never
canonicalizes to an ASCII one, and every literal of the patterns below is ASCII, so this is
all of the mapping that can make a literal match. -/
def canonicalize (u : Nat) : Nat := if 97 ≤ u ∧ u ≤ 122 then u - 32 else u

/-- One term of a pattern. -/
inductive Atom where
  /-- A literal character. -/
  | lit (u : Nat)
  /-- A character class under a greedy quantifier `{min,max}`; `max = none` is unbounded. -/
  | cls (p : Nat → Bool) (min : Nat) (max : Option Nat)
  /-- The assertion `\b`. -/
  | wordBoundary

/-- A regular expression literal: its terms and its flags `g` and `i`. -/
structure RegExp where
  atoms : List Atom
  global : Bool
  ignoreCase : Bool

/-- Whether the quantifier still allows one more repetition. -/
def canTake : Option Nat → Bool
  | none => true
  | some n => 0 < n

/-- The bound left after one repetition. -/
def takeOne : Option Nat → Option Nat
  | none => none
  | some n => some (n - 1)

/-- Greedy repetition of the class `p`, between `min` and `max` more times, followed by the
continuation `k`.  `prev` is the character before the current position. -/
def matchRep (p : Nat → Bool) (k : Option Nat → JSString → Option JSString) :
    Nat → Option Nat → Option Nat → JSString → Option JSString
  | min, _, prev, [] => if min = 0 then k prev [] else none
  | min, max, prev, c :: cs =>
    if canTake max && p c then
      match matchRep p k (min - 1) (takeOne max) (some c) cs with
      | some m => some (c :: m)
      | none => if min = 0 then k prev (c :: cs) else none
    else if min = 0 then k prev (c :: cs) else none

/-- IsWordChar at a position that may lie outside the text. -/
def isWordAt : Option Nat → Bool
  | none => false
  | some u => isWordChar u

/-- Match the terms at the current position; the result is the matched text. -/
def matchHere (ignoreCase : Bool) : List Atom → Option Nat → JSString → Option JSString
  | [], _, _ => some []
  | Atom.lit u :: rest, _, input =>
    match input with
    | [] => none
    | c :: cs =>
      if (if ignoreCase then canonicalize c == canonicalize u else c == u) then
        (matchHere ignoreCase rest (some c) cs).map (c :: ·)
      else none
  | Atom.cls p min max :: rest, prev, input =>
    matchRep p (matchHere ignoreCase rest) min max prev input
  | Atom.wordBoundary :: rest, prev, input =>
    if isWordAt prev != isWordAt input.head? then matchHere ignoreCase rest prev input
    else none

/-- The leftmost match: every start position is tried in turn (RegExpBuiltinExec). -/
def search (re : RegExp) : Option Nat → JSString → Option JSString
  | prev, [] => matchHere re.ignoreCase re.atoms prev []
  | prev, c :: cs =>
    match matchHere re.ignoreCase re.atoms prev (c :: cs) with
    | some m => some m
    | none => search re (some c) cs

/-- All successive matches of a global pattern.  `skip` counts the characters of the last
match that are still to be passed; after an empty match the position advances by one. -/
def searchAll (re : RegExp) : Nat → Option Nat → JSString → List JSString
  | skip, prev, [] =>
    if skip = 0 then
      match matchHere re.ignoreCase re.atoms prev [] with
      | some m => [m]
      | none => []
    else []
  | 0, prev, c :: cs =>
    match matchHere re.ignoreCase re.atoms prev (c :: cs) with
    | some m => m :: searchAll re (m.length - 1) (some c) cs
    | none => searchAll re 0 (some c) cs
  | skip + 1, _, c :: cs => searchAll re skip (some c) cs

/-- Modelled `String.prototype.match`: `null` is `none`.  With the `g` flag the array holds
every match; without it the array starts with the whole match (the captures that follow
it are never read by the source). -/
def strMatch (text : JSString) (re : RegExp) : Option (List JSString) :=
  if re.global then
    match searchAll re 0 none text with
    | [] => none
    | ms => some ms
  else
    (search re none text).map fun m => [m]

/-- Literal characters of a pattern. -/
def lits (s : String) : List Atom := (js s).map Atom.lit

/-- Pattern `/\b\d{4,6}\b/g`. -/
def bareRe : RegExp :=
  ⟨[Atom.wordBoundary, Atom.cls isDigit 4 (some 6), Atom.wordBoundary], true, false⟩

/-- Pattern `/code[:\s]*(\d{4,6})/i`. -/
def codeRe : RegExp :=
  ⟨lits "code" ++ [Atom.cls isColonOrSpace 0 none, Atom.cls isDigit 4 (some 6)], false, true⟩

/-- Pattern `/otp[:\s]*(\d{4,6})/i`. -/
def otpRe : RegExp :=
  ⟨lits "otp" ++ [Atom.cls isColonOrSpace 0 none, Atom.cls isDigit 4 (some 6)], false, true⟩

/-- Pattern `/verification[:\s]*(\d{4,6})/i`. -/
def verificationRe : RegExp :=
  ⟨lits "verification" ++ [Atom.cls isColonOrSpace 0 none, Atom.cls isDigit 4 (some 6)],
    false, true⟩

/-- Pattern `/(\d{4,6})[\s]*is your code/i`. -/
def isYourCodeRe : RegExp :=
  ⟨[Atom.cls isDigit 4 (some 6), Atom.cls isSpace 0 none] ++ lits "is your code", false, true⟩

/-- Pattern `/your code is[\s]*(\d{4,6})/i`. -/
def yourCodeIsRe : RegExp :=
  ⟨lits "your code is" ++ [Atom.cls isSpace 0 none, Atom.cls isDigit 4 (some 6)], false, true⟩

/-- The list `otpPatterns` of `extractOTP`, in source order. -/
def otpPatterns : List RegExp :=
  [bareRe, codeRe, otpRe, verificationRe, isYourCodeRe, yourCodeIsRe]

/-- The pattern `/\d+/`. -/
def digitsRe : RegExp := ⟨[Atom.cls isDigit 1 none], false, false⟩

/-- The loop of `extractOTP` over the remaining patterns. -/
def extractOTPLoop (text : JSString) : List RegExp → Option JSString
  | [] => none
  | pattern :: rest =>
    match strMatch text pattern with
    | some (m0 :: _) =>
      match strMatch m0 digitsRe with
      | some (numbers0 :: _) =>
        if numbers0.length ≥ 4 then some numbers0 else extractOTPLoop text rest
      | _ => extractOTPLoop text rest
    | _ => extractOTPLoop text rest

/-- Function `extractOTP(text)`; `none` is `null`. -/
def extractOTP (text : JSString) : Option JSString := extractOTPLoop text otpPatterns

/-! ## Properties of the matcher -/

/-- Declarative reading of a sequence of terms: the texts it can match. -/
def Conforms (ignoreCase : Bool) : List Atom → JSString → Prop
  | [], m => m = []
  | Atom.lit u :: rest, m =>
    ∃ c m', m = c :: m' ∧ (if ignoreCase then canonicalize c = canonicalize u else c = u) ∧
      Conforms ignoreCase rest m'
  | Atom.cls p min max :: rest, m =>
    ∃ a b, m = a ++ b ∧ (∀ x ∈ a, p x = true) ∧ min ≤ a.length ∧
      (∀ n, max = some n → a.length ≤ n) ∧ Conforms ignoreCase rest b
  | Atom.wordBoundary :: rest, m => Conforms ignoreCase rest m

/-- A term that cannot match a decimal digit. -/
def NonDigitAtom : Atom → Prop
  | Atom.lit u => isDigit u = false
  | Atom.cls p _ _ => ∀ c, p c = true → isDigit c = false
  | Atom.wordBoundary => True

/-- A pattern made of one `\d{4,6}` between terms that match no digit. -/
def OTPShaped (re : RegExp) : Prop :=
  ∃ pre post, re.atoms = pre ++ Atom.cls isDigit 4 (some 6) :: post ∧
    (∀ a ∈ pre, NonDigitAtom a) ∧ (∀ a ∈ post, NonDigitAtom a)

/-- Length of the longest run of decimal digits: `cur` is the length of the run that ends at
the current position, `best` the longest run that ended before. -/
def longestRunFrom : Nat → Nat → JSString → Nat
  | cur, best, [] => max cur best
  | cur, best, c :: cs =>
    if isDigit c then longestRunFrom (cur + 1) best cs
    else longestRunFrom 0 (max cur best) cs

/-- Length of the longest maximal run of decimal digits of a text (0 without digits). -/
def longestDigitRun (text : JSString) : Nat := longestRunFrom 0 0 text

/-- The character before the position reached after reading `d`. -/
def lastChar (prev : Option Nat) (d : JSString) : Option Nat :=
  d.foldl (fun _ x => some x) prev

/-! ## Mailbox fetcher: `checkEmailAccount`

The provider is reached through `axios.get`.  Its behaviour is a parameter: the outcome of a
request may depend on the request and on how many requests were issued before it (so the
provider may change between two requests).  A rejected promise (transport error, timeout,
error status) is `Except.error` with the error message.

A payload is an array, an object with the fields that the source reads, `null`, or any
other value.  An element of the list payload is a message header or `null`.  Reading a
property of `null` throws a `TypeError`: this happens for a `null` element when the URL of
the detail request is built (`msg.id`), again when the inner `catch` logs `msg.id`, and for
a `null` payload of `readMessage` at `msgResponse.data.textBody`. -/

/-- Requests of `checkEmailAccount`, by the `action` and parameters of the URL. -/
inductive Request where
  /-- The URL `...?action=getMessages&login=..&domain=..`. -/
  | getMessages (login domain : JSString)
  /-- The URL `...?action=readMessage&login=..&domain=..&id=..`. -/
  | readMessage (login domain : JSString) (id : Nat)
  deriving DecidableEq

/-- One element `msg` of the list payload. -/
structure ListItem where
  id : Nat
  from_ : JSString
  subject : Option JSString
  date : JSString
  deriving DecidableEq

/-- The field `data` of a response. -/
inductive ResponseData where
  /-- An array; an element is a message header, or `null` (`none`). -/
  | array (items : List (Option ListItem))
  /-- An object with the optional fields `textBody` and `htmlBody`. -/
  | body (textBody htmlBody : Option JSString)
  /-- The value `null`. -/
  | null
  /-- Any other value: not an array, not `null`, and without these fields. -/
  | other
  deriving DecidableEq

/-- Message of the `TypeError` thrown by `msg.id` for a `null` element. -/
def nullItemError : JSString := js "Cannot read properties of null (reading 'id')"

/-- Message of the `TypeError` thrown by `msgResponse.data.textBody` for a `null` payload. -/
def nullBodyError : JSString := js "Cannot read properties of null (reading 'textBody')"

/-- The environment of the fetcher: the provider behind `axios.get` and the clock function
`new Date(s).getTime()` (`none` is `NaN`). -/
structure Env where
  get : Nat → Request → Except JSString ResponseData
  getTime : JSString → Option Int

/-- The object `messageData`. -/
structure MessageData where
  id : Nat
  from_ : JSString
  subject : JSString
  body : JSString
  date : JSString
  timestamp : Option Int
  otp : Option JSString
  deriving DecidableEq

/-- Lines written by `console.log` in the fetcher. -/
inductive LogLine where
  | otpFound (email otp : JSString)
  | messageError (id : Nat) (email error : JSString)
  | checkError (email error : JSString)
  deriving DecidableEq

/-- What a run has done so far: the requests issued, in order, and the lines logged. -/
structure Trace where
  requests : List Request
  log : List LogLine
  deriving DecidableEq

/-- Call of `axios.get`: the request is recorded and the provider answers. -/
def axiosGet (env : Env) (req : Request) (t : Trace) : Except JSString ResponseData × Trace :=
  (env.get t.requests.length req, { t with requests := t.requests ++ [req] })

/-- Method `split(sep)` of a string, for a separator of one character. -/
def split (sep : Nat) : JSString → List JSString
  | [] => [[]]
  | c :: cs =>
    if c = sep then [] :: split sep cs
    else
      match split sep cs with
      | p :: ps => (c :: p) :: ps
      | [] => [[c]]

/-- A value inside a template literal: `undefined` is printed as such. -/
def template : Option JSString → JSString
  | some s => s
  | none => js "undefined"

/-- Expression `a || b` for an optional string `a`: absent and empty strings are falsy. -/
def orElse (a : Option JSString) (b : JSString) : JSString :=
  match a with
  | some s => if s = [] then b else s
  | none => b

/-- Field `textBody` of a payload (`undefined` when absent). -/
def ResponseData.textBody : ResponseData → Option JSString
  | ResponseData.body t _ => t
  | _ => none

/-- Field `htmlBody` of a payload (`undefined` when absent). -/
def ResponseData.htmlBody : ResponseData → Option JSString
  | ResponseData.body _ h => h
  | _ => none

/-- The object `messageData` as first built, with `otp: null`. -/
def newMessageData (env : Env) (msg : ListItem) (data : ResponseData) : MessageData :=
  { id := msg.id
    from_ := msg.from_
    subject := orElse msg.subject (js "No Subject")
    body := orElse data.textBody (orElse data.htmlBody [])
    date := msg.date
    timestamp := env.getTime msg.date
    otp := none }

/-- The text given to `extractOTP`: subject, a blank, body. -/
def fullText (m : MessageData) : JSString := m.subject ++ js " " ++ m.body

/-- The object `messageData` when it is pushed: `otp` is set when `extractOTP` returns a
truthy value. -/
def finalMessageData (env : Env) (msg : ListItem) (data : ResponseData) : MessageData :=
  let messageData := newMessageData env msg data
  match extractOTP (fullText messageData) with
  | some otp => if otp ≠ [] then { messageData with otp := some otp } else messageData
  | none => messageData

/-- Body of the inner `try` for one `msg`: the detail request, then the message.  An error
is the exception that leaves the block: a rejected request, or the `TypeError` of reading
a property of `null` (for a `null` element no request is issued, as the URL is built
first). -/
def readMessageTry (env : Env) (email login domain : JSString) (msg : Option ListItem)
    (t : Trace) : Except JSString MessageData × Trace :=
  match msg with
  | none => (Except.error nullItemError, t)
  | some item =>
    match axiosGet env (Request.readMessage login domain item.id) t with
    | (Except.error e, t1) => (Except.error e, t1)
    | (Except.ok ResponseData.null, t1) => (Except.error nullBodyError, t1)
    | (Except.ok data, t1) =>
      let messageData := finalMessageData env item data
      match messageData.otp with
      | some otp =>
        (Except.ok messageData, { t1 with log := t1.log ++ [LogLine.otpFound email otp] })
      | none => (Except.ok messageData, t1)

/-- The loop `for (const msg of response.data)` with its inner `try`/`catch`: a message that
was read is pushed on `newMessages`; an exception is logged with `msg.id` and the loop goes
on.  For a `null` element the `catch` block itself throws when it reads `msg.id`, and this
exception leaves the loop. -/
def checkLoop (env : Env) (email login domain : JSString) :
    List (Option ListItem) → List MessageData → Trace →
      Except JSString (List MessageData) × Trace
  | [], newMessages, t => (Except.ok newMessages, t)
  | msg :: rest, newMessages, t =>
    match readMessageTry env email login domain msg t with
    | (Except.ok messageData, t1) =>
      checkLoop env email login domain rest (newMessages ++ [messageData]) t1
    | (Except.error e, t1) =>
      match msg with
      | none => (Except.error nullItemError, t1)
      | some item =>
        checkLoop env email login domain rest newMessages
          { t1 with log := t1.log ++ [LogLine.messageError item.id email e] }

/-- The variable `username` of `const [username, domain] = email.split('@')`. -/
def usernameOf (email : JSString) : JSString := template (split 64 email)[0]?

/-- The variable `domain` of the same statement, as it prints in the URL: `undefined` for an
address without `@`. -/
def domainOf (email : JSString) : JSString := template (split 64 email)[1]?

/-- Body of the outer `try` of `checkEmailAccount`. -/
def checkEmailAccountTry (env : Env) (email : JSString) (t : Trace) :
    Except JSString (List MessageData) × Trace :=
  let username := usernameOf email
  let domain := domainOf email
  match axiosGet env (Request.getMessages username domain) t with
  | (Except.error e, t1) => (Except.error e, t1)
  | (Except.ok (ResponseData.array items), t1) =>
    checkLoop env email username domain items [] t1
  | (Except.ok _, t1) => (Except.ok [], t1)

/-- Function `checkEmailAccount(email)`: the outer `try` and its `catch`, which logs the
error and returns the empty array.  `Except.error` would be a rejected promise. -/
def checkEmailAccount (env : Env) (email : JSString) (t : Trace) :
    Except JSString (List MessageData) × Trace :=
  match checkEmailAccountTry env email t with
  | (Except.ok messages, t1) => (Except.ok messages, t1)
  | (Except.error e, t1) =>
    (Except.ok [], { t1 with log := t1.log ++ [LogLine.checkError email e] })


/-- A mailbox of three messages, used to evaluate the fetcher. -/
def sampleItems : List ListItem :=
  [ ⟨1, js "a@shop.example", some (js "Your code is 4821"), js "2024-01-01 10:00:00"⟩,
    ⟨2, js "b@shop.example", some (js "Hello"), js "2024-01-01 10:01:00"⟩,
    ⟨3, js "c@shop.example", none, js "2024-01-01 10:02:00"⟩ ]

/-- A provider that lists `sampleItems` and fails on the detail request of message 2. -/
def sampleEnv : Env where
  get := fun _ req =>
    match req with
    | Request.getMessages _ _ => Except.ok (ResponseData.array (sampleItems.map some))
    | Request.readMessage _ _ id =>
      if id = 2 then Except.error (js "timeout of 10000ms exceeded")
      else Except.ok (ResponseData.body (some (js "text")) none)
  getTime := fun _ => none

/-- A provider that lists one message and answers its detail request with `null`. -/
def nullBodyEnv : Env where
  get := fun _ req =>
    match req with
    | Request.getMessages _ _ => Except.ok (ResponseData.array (sampleItems.take 1 |>.map some))
    | Request.readMessage _ _ _ => Except.ok ResponseData.null
  getTime := fun _ => none

/-- A provider whose list has `null` as second element, and whose detail requests succeed. -/
def nullItemEnv : Env where
  get := fun _ req =>
    match req with
    | Request.getMessages _ _ =>
      Except.ok (ResponseData.array [sampleItems[0]?, none, sampleItems[2]?])
    | Request.readMessage _ _ _ => Except.ok (ResponseData.body (some (js "text")) none)
  getTime := fun _ => none

/-- A provider whose every request is rejected. -/
def downEnv : Env where
  get := fun _ _ => Except.error (js "getaddrinfo ENOTFOUND www.1secmail.com")
  getTime := fun _ => none

/-- The trace of a run that has done nothing yet. -/
def emptyTrace : Trace := ⟨[], []⟩


/-! ## Address generation: `POST /api/create-email`

`Math.random()` returns a double in `[0, 1)`.  These are the numbers `m / 2^k` with
`m < 2^53` and `53 ≤ k ≤ 1074`.  The random source gives, for each call, a pair from which
`m` and `k` are taken.  The product `Math.random() * n` with a small integer `n` is the
IEEE 754 product of two doubles: the exact product `m * n / 2^k`, rounded to the nearest
double, ties to even.  A product with more than 53 significant bits is at least `2^-1021`,
a normal number, so it is rounded to 53 bits; a shorter one is a double and stays as it
is.  `Math.floor` is exact. -/

/-- The constant `DOMAINS`. -/
def DOMAINS : List JSString :=
  [js "1secmail.com", js "1secmail.org", js "1secmail.net", js "esiix.com", js "wwjmp.com",
    js "xojxe.com", js "yoggm.com"]

/-- The constant `chars` of `generateUsername`. -/
def chars : JSString := js "abcdefghijklmnopqrstuvwxyz0123456789"

/-- Number of binary digits of `n`, with `fuel` steps allowed. -/
def bitLengthAux : Nat → Nat → Nat
  | 0, _ => 0
  | fuel + 1, n => if n = 0 then 0 else bitLengthAux fuel (n / 2) + 1

/-- Number of binary digits of `n`: `2^(b-1) ≤ n < 2^b`, and 0 for 0. -/
def bitLength (n : Nat) : Nat := bitLengthAux n n

/-- Rounding to the nearest double, ties to even, of a number `N / 2^k` (in the normal range
when `N` has more than 53 binary digits); the result is in the same unit `1 / 2^k`. -/
def roundToDouble (N : Nat) : Nat :=
  let s := bitLength N - 53
  if s = 0 then N
  else
    let q := N / 2 ^ s
    let r := N % 2 ^ s
    if 2 ^ (s - 1) < r ∨ (r = 2 ^ (s - 1) ∧ q % 2 = 1) then (q + 1) * 2 ^ s else q * 2 ^ s

/-- Numerator `m` of the double that the `i`-th call of `Math.random` returns. -/
def randomNumerator (rng : Nat → Nat × Nat) (i : Nat) : Nat := (rng i).1 % 2 ^ 53

/-- Exponent `k` of the double `m / 2^k` that the `i`-th call of `Math.random` returns. -/
def randomExponent (rng : Nat → Nat × Nat) (i : Nat) : Nat := 53 + (rng i).2 % 1022

/-- Expression `Math.floor(Math.random() * n)` at the `i`-th call of `Math.random`, for an
integer `n` below `2^53`. -/
def randomIndex (rng : Nat → Nat × Nat) (i n : Nat) : Nat :=
  roundToDouble (randomNumerator rng i * n) / 2 ^ randomExponent rng i

/-- Indexing `xs[i]` inside a string concatenation or template: `undefined` out of range. -/
def elemText (xs : List JSString) (i : Nat) : JSString := template xs[i]?

/-- Indexing `chars[i]` of a string, appended to a string: `undefined` out of range. -/
def charText (s : JSString) (i : Nat) : JSString :=
  match s[i]? with
  | some c => [c]
  | none => js "undefined"

/-- The inner loop of `generateUsername`: `n` more characters are appended to `result`;
`k` counts the calls of `Math.random` made so far. -/
def appendRandomChars (rng : Nat → Nat × Nat) : Nat → JSString → Nat → JSString × Nat
  | 0, result, k => (result, k)
  | n + 1, result, k =>
    appendRandomChars rng n (result ++ charText chars (randomIndex rng k chars.length)) (k + 1)

/-- Function `generateUsername()`, for the request's `prefix` (`pfx`; `none` when absent). -/
def generateUsername (rng : Nat → Nat × Nat) (pfx : Option JSString) (k : Nat) : JSString × Nat :=
  let result := orElse pfx []
  let length : Int := 8 - (result.length : Int)
  appendRandomChars rng (max length 4).toNat result k

/-- The loop `for (let i = 0; i < count; i++)` of the handler, with `n` rounds left. -/
def createEmailLoop (rng : Nat → Nat × Nat) (pfx : Option JSString) :
    Nat → List JSString → Nat → List JSString × Nat
  | 0, generatedEmails, k => (generatedEmails, k)
  | n + 1, generatedEmails, k =>
    let (username, k1) := generateUsername rng pfx k
    let domain := elemText DOMAINS (randomIndex rng k1 DOMAINS.length)
    let email := username ++ js "@" ++ domain
    createEmailLoop rng pfx n (generatedEmails ++ [email]) (k1 + 1)

/-- The JSON body of a response of `POST /api/create-email`. -/
structure CreateEmailResponse where
  status : Nat
  success : Bool
  emails : List JSString
  message : JSString

/-- Handler of `POST /api/create-email` for the body fields `prefix` and `count` (`count`
is 1 when absent); `k` counts the earlier calls of `Math.random`. -/
def createEmail (rng : Nat → Nat × Nat) (pfx : Option JSString) (count : Option Nat) (k : Nat) :
    CreateEmailResponse :=
  let generatedEmails := (createEmailLoop rng pfx (count.getD 1) [] k).1
  { status := 200
    success := true
    emails := generatedEmails
    message := js "Successfully generated " ++ js (toString generatedEmails.length) ++
      js " temporary email(s)" }

/-- Class `[a-z0-9]`. -/
def isLowerAlnum (u : Nat) : Bool := (97 ≤ u && u ≤ 122) || (48 ≤ u && u ≤ 57)

/-- What the handler of create-email builds as one address. -/
def GeneratedAddress (pfx : Option JSString) (email : JSString) : Prop :=
  ∃ r d, email = (orElse pfx [] ++ r) ++ js "@" ++ d ∧
    r.length = max (8 - (orElse pfx []).length) 4 ∧ (∀ x ∈ r, isLowerAlnum x = true) ∧
    d ∈ DOMAINS


/-! ## Polling scheduler: `activeCheckers`, `startEmailChecking`, `stopEmailChecking`

A `Map` is an association list in insertion order.  The timers of `setInterval` are kept in
the state: a timer is live from `setInterval` until `clearInterval`.  The callback given to
`startEmailChecking` comes from its caller; it is identified by a number, and calling it is
recorded in `invoked`. -/

/-- Method `Map.prototype.get`; `none` is `undefined`. -/
def mapGet {α : Type} (k : JSString) : List (JSString × α) → Option α
  | [] => none
  | (k', v) :: m => if k' = k then some v else mapGet k m

/-- Method `Map.prototype.has`. -/
def mapHas {α : Type} (k : JSString) (m : List (JSString × α)) : Bool := (mapGet k m).isSome

/-- Method `Map.prototype.set`: the value of a present key is replaced in place, a new key
is added at the end. -/
def mapSet {α : Type} (k : JSString) (v : α) : List (JSString × α) → List (JSString × α)
  | [] => [(k, v)]
  | (k', v') :: m => if k' = k then (k, v) :: m else (k', v') :: mapSet k v m

/-- Method `Map.prototype.delete`. -/
def mapDelete {α : Type} (k : JSString) (m : List (JSString × α)) : List (JSString × α) :=
  m.filter fun p => p.1 ≠ k

/-- A live interval timer: the value returned by `setInterval`, with the variables `email`
and `callback` that its function closes over. -/
structure Timer where
  id : Nat
  email : JSString
  callback : Option Nat
  deriving DecidableEq

/-- A run of the interval function that waits at `await checkEmailAccount(email)`. -/
structure Tick where
  email : JSString
  callback : Option Nat
  deriving DecidableEq

/-- One call `callback(email, messages)`. -/
structure Invocation where
  callback : Nat
  email : JSString
  messages : List MessageData
  deriving DecidableEq

/-- State of the scheduler. -/
structure Scheduler where
  /-- The map `activeCheckers`: address to timer. -/
  activeCheckers : List (JSString × Nat)
  /-- The timers created and not yet cleared. -/
  timers : List Timer
  /-- The identity of the next timer that `setInterval` creates. -/
  nextTimer : Nat
  /-- The runs of interval functions whose fetch has not returned yet. -/
  inflight : List Tick
  /-- The calls of callbacks made so far. -/
  invoked : List Invocation
  deriving DecidableEq

/-- Function `clearInterval(id)`. -/
def clearInterval (id : Nat) (s : Scheduler) : Scheduler :=
  { s with timers := s.timers.filter fun t => t.id ≠ id }

/-- Function `setInterval(f, CHECK_INTERVAL)` for the interval function of
`startEmailChecking`: a new timer, different from every timer created before. -/
def setInterval (email : JSString) (callback : Option Nat) (s : Scheduler) : Nat × Scheduler :=
  (s.nextTimer,
    { s with timers := s.timers ++ [⟨s.nextTimer, email, callback⟩]
             nextTimer := s.nextTimer + 1 })

/-- Function `startEmailChecking(email, callback)`. -/
def startEmailChecking (email : JSString) (callback : Option Nat) (s : Scheduler) : Scheduler :=
  let s1 :=
    if mapHas email s.activeCheckers then
      match mapGet email s.activeCheckers with
      | some intervalId => clearInterval intervalId s
      | none => s
    else s
  let (intervalId, s2) := setInterval email callback s1
  { s2 with activeCheckers := mapSet email intervalId s2.activeCheckers }

/-- Function `stopEmailChecking(email)`. -/
def stopEmailChecking (email : JSString) (s : Scheduler) : Scheduler :=
  if mapHas email s.activeCheckers then
    let s1 :=
      match mapGet email s.activeCheckers with
      | some intervalId => clearInterval intervalId s
      | none => s
    { s1 with activeCheckers := mapDelete email s1.activeCheckers }
  else s

/-- The timer `id` fires: when it is live, its interval function starts and waits for
`checkEmailAccount(email)`.  A cleared timer does not fire. -/
def timerFire (id : Nat) (s : Scheduler) : Scheduler :=
  match s.timers.find? fun t => t.id = id with
  | some t => { s with inflight := s.inflight ++ [⟨t.email, t.callback⟩] }
  | none => s

/-- The fetch of the `i`-th waiting run returns `messages` (by C9 it never throws): the
run resumes, and calls the callback when `messages.length > 0 && callback`. -/
def fetchDone (i : Nat) (messages : List MessageData) (s : Scheduler) : Scheduler :=
  match s.inflight[i]? with
  | none => s
  | some tick =>
    let s1 := { s with inflight := s.inflight.eraseIdx i }
    if messages.length > 0 then
      match tick.callback with
      | some cb => { s1 with invoked := s1.invoked ++ [⟨cb, tick.email, messages⟩] }
      | none => s1
    else s1

/-- What can happen to the scheduler. -/
inductive SchedEvent where
  | start (email : JSString) (callback : Option Nat)
  | stop (email : JSString)
  | fire (id : Nat)
  | done (i : Nat) (messages : List MessageData)
  deriving DecidableEq

/-- One step of the scheduler. -/
def schedStep (s : Scheduler) : SchedEvent → Scheduler
  | SchedEvent.start email callback => startEmailChecking email callback s
  | SchedEvent.stop email => stopEmailChecking email s
  | SchedEvent.fire id => timerFire id s
  | SchedEvent.done i messages => fetchDone i messages s

/-- A sequence of steps of the scheduler. -/
def schedRun (s : Scheduler) (events : List SchedEvent) : Scheduler := events.foldl schedStep s

/-- The scheduler when the server starts. -/
def emptyScheduler : Scheduler := ⟨[], [], 0, [], []⟩

/-- The live timers that poll `email`. -/
def liveTimersFor (email : JSString) (s : Scheduler) : List Timer :=
  s.timers.filter fun t => t.email = email

/-- The waiting runs that poll `email`. -/
def inflightFor (email : JSString) (s : Scheduler) : List Tick :=
  s.inflight.filter fun t => t.email = email

/-- The calls of callbacks made for `email`. -/
def invokedFor (email : JSString) (s : Scheduler) : List Invocation :=
  s.invoked.filter fun c => c.email = email

/-- Timers are told apart by their identity, and `setInterval` gives a new one. -/
def TimersDistinct (s : Scheduler) : Prop :=
  (s.timers.map Timer.id).Nodup ∧ ∀ t ∈ s.timers, t.id < s.nextTimer

/-- Every live timer is the value of the entry of `activeCheckers` for its address. -/
def TimersTracked (s : Scheduler) : Prop :=
  ∀ t ∈ s.timers, mapGet t.email s.activeCheckers = some t.id

/-- The invariant of the scheduler: each tracked address has exactly one live timer, which
is the value stored under it, and no live timer is untracked. -/
def SchedInv (s : Scheduler) : Prop :=
  TimersDistinct s ∧
  (∀ email, mapHas email s.activeCheckers = true →
    ∃ t, liveTimersFor email s = [t] ∧ mapGet email s.activeCheckers = some t.id) ∧
  (∀ t ∈ s.timers, mapHas t.email s.activeCheckers = true)


/-- The timers left by `clearInterval(activeCheckers.get(email))` when the address is
tracked, all of them when it is not. -/
def clearOpt : Option Nat → List Timer → List Timer
  | some id, ts => ts.filter fun t => t.id ≠ id
  | none, ts => ts


/-- A scheduler that tracks one address. -/
def sampleScheduler : Scheduler :=
  startEmailChecking (js "other@esiix.com") (some 0) emptyScheduler

/-- A fetched message with a code. -/
def sampleMessage : MessageData :=
  { id := 7
    from_ := js "noreply@shop.example"
    subject := js "Your code is 4821"
    body := js "text"
    date := js "2024-01-01 10:00:00"
    timestamp := none
    otp := some (js "4821") }


/-- A scheduler that polls one address, with one fetch in flight. -/
def pollingScheduler : Scheduler :=
  schedRun emptyScheduler [SchedEvent.start (js "box@1secmail.com") (some 7), SchedEvent.fire 0]

/-! ## WebSocket hub and routes that touch the scheduler

Each socket has an identity; the handlers installed for a socket close over its `clientId`.
`sent` records every call of `ws.send`, with the frame that was serialised.  The frame
`push` is the "push of new messages for a subscribed address" of the specification; it is
part of the type so that its absence from `sent` can be stated. -/

/-- A frame for a client. -/
inductive Frame where
  /-- The frame `{type: 'welcome', clientId, message}`. -/
  | welcome (clientId : JSString)
  /-- The frame `{type: 'pong', timestamp}`. -/
  | pong (timestamp : Nat)
  /-- New messages for a subscribed address. -/
  | push (email : JSString) (messages : List MessageData)
  deriving DecidableEq

/-- A value of the map `connections`. -/
structure Connection where
  ws : Nat
  email : Option JSString
  lastActivity : Nat
  deriving DecidableEq

/-- What `JSON.parse(message)` and the `switch (data.type)` make of a client message. -/
inductive ClientMessage where
  /-- An object of type `register` with its field `email`. -/
  | register (email : Option JSString)
  /-- An object of type `ping`. -/
  | ping
  /-- Anything else: another type, or a text that `JSON.parse` rejects. -/
  | other
  deriving DecidableEq

/-- State of the server: scheduler, map `connections`, the `clientId` that the handlers of
each socket close over, and the frames sent. -/
structure Server where
  scheduler : Scheduler
  connections : List (JSString × Connection)
  handlers : List (Nat × JSString)
  sent : List (Nat × Frame)
  deriving DecidableEq

/-- The JSON body of a response with the fields `success` and `message` or `error`. -/
structure HttpResponse where
  status : Nat
  success : Bool
  text : JSString
  deriving DecidableEq

/-- Handler of `POST /api/start-realtime` for the body fields `email` and `clientId`: a
missing or empty `email` is refused, otherwise a line is logged and success is answered. -/
def startRealtime (email _clientId : Option JSString) (s : Server) : HttpResponse × Server :=
  if orElse email [] = [] then (⟨400, false, js "Email is required"⟩, s)
  else (⟨200, true, js "Real-time checking started"⟩, s)

/-- Handler of `DELETE /api/delete-email/:email`. -/
def deleteEmail (email : JSString) (s : Server) : HttpResponse × Server :=
  (⟨200, true, js "Stopped checking emails for " ++ email⟩,
    { s with scheduler := stopEmailChecking email s.scheduler })

/-- The fields `activeAccounts` and `domainsAvailable` of the answer of `GET /api/stats`. -/
structure Stats where
  activeAccounts : Nat
  domainsAvailable : Nat
  deriving DecidableEq

/-- Handler of `GET /api/stats`. -/
def stats (s : Server) : Stats :=
  { activeAccounts := s.scheduler.activeCheckers.length
    domainsAvailable := DOMAINS.length }

/-- Handler of the event `connection` of `wss`; `clientId` and `now` are what
`Date.now() + Math.random().toString(36).substr(2, 9)` and `Date.now()` give. -/
def wsConnection (ws : Nat) (clientId : JSString) (now : Nat) (s : Server) : Server :=
  { s with connections := mapSet clientId ⟨ws, none, now⟩ s.connections
           sent := s.sent ++ [(ws, Frame.welcome clientId)]
           handlers := s.handlers ++ [(ws, clientId)] }

/-- Assignment `connections.get(clientId).email = email`, when the entry exists. -/
def setEmail (clientId : JSString) (email : Option JSString) :
    List (JSString × Connection) → List (JSString × Connection)
  | [] => []
  | (k, c) :: m =>
    if k = clientId then (k, { c with email := email }) :: m
    else (k, c) :: setEmail clientId email m

/-- Handler of the event `message` of a socket whose handlers close over `clientId`.  An
exception (a text that is not JSON, a `register` for a connection that was removed) is
caught and logged. -/
def wsMessage (ws : Nat) (clientId : JSString) (data : ClientMessage) (now : Nat) (s : Server) :
    Server :=
  match data with
  | ClientMessage.register email =>
    { s with connections := setEmail clientId email s.connections }
  | ClientMessage.ping => { s with sent := s.sent ++ [(ws, Frame.pong now)] }
  | ClientMessage.other => s

/-- Handlers of the events `close` and `error` of a socket. -/
def wsClose (clientId : JSString) (s : Server) : Server :=
  { s with connections := mapDelete clientId s.connections }

/-- The hourly cleanup: connections idle for more than an hour are closed and removed. -/
def sweep (now : Nat) (s : Server) : Server :=
  { s with connections := s.connections.filter fun p => ¬ (now - p.2.lastActivity > 3600000) }

/-- What can happen to the server. -/
inductive Event where
  | startRealtime (email clientId : Option JSString)
  | deleteEmail (email : JSString)
  | connection (ws : Nat) (clientId : JSString) (now : Nat)
  | message (ws : Nat) (data : ClientMessage) (now : Nat)
  | close (ws : Nat)
  | error (ws : Nat)
  | sweep (now : Nat)
  | timerFire (id : Nat)
  | fetchDone (i : Nat) (messages : List MessageData)
  deriving DecidableEq

/-- The `clientId` of the handlers of a socket, when the socket has connected. -/
def clientOf (ws : Nat) (s : Server) : Option JSString :=
  (s.handlers.find? fun p => p.1 = ws).map Prod.snd

/-- One step of the server.  The other routes (create-email, get-messages, check-emails,
verify-email, stats) change nothing of this state. -/
def step (s : Server) : Event → Server
  | Event.startRealtime email clientId => (startRealtime email clientId s).2
  | Event.deleteEmail email => (deleteEmail email s).2
  | Event.connection ws clientId now => wsConnection ws clientId now s
  | Event.message ws data now =>
    match clientOf ws s with
    | some clientId => wsMessage ws clientId data now s
    | none => s
  | Event.close ws =>
    match clientOf ws s with
    | some clientId => wsClose clientId s
    | none => s
  | Event.error ws =>
    match clientOf ws s with
    | some clientId => wsClose clientId s
    | none => s
  | Event.sweep now => sweep now s
  | Event.timerFire id => { s with scheduler := timerFire id s.scheduler }
  | Event.fetchDone i messages => { s with scheduler := fetchDone i messages s.scheduler }

/-- A sequence of steps of the server. -/
def run (s : Server) (events : List Event) : Server := events.foldl step s

/-- The server when it starts. -/
def initialServer : Server := ⟨emptyScheduler, [], [], []⟩

/-- The frames sent on a socket, in order. -/
def framesTo (ws : Nat) (s : Server) : List Frame :=
  (s.sent.filter fun p => p.1 = ws).map Prod.snd

/-- Whether a frame is a push. -/
def Frame.isPush : Frame → Bool
  | Frame.push _ _ => true
  | _ => false

/-- The connections registered for an address. -/
def registeredFor (email : JSString) (s : Server) : List Connection :=
  (s.connections.map Prod.snd).filter fun c => c.email = some email

/-- The scenario of two clients that register for one address, ask for real-time checking
and wait for a tick. -/
def twoClients : List Event :=
  [ Event.connection 1 (js "1700000000000k3j9x0q2a") 1700000000000,
    Event.connection 2 (js "1700000000500p8f1m4z7c") 1700000000500,
    Event.message 1 (ClientMessage.register (some (js "box@1secmail.com"))) 1700000001000,
    Event.message 2 (ClientMessage.register (some (js "box@1secmail.com"))) 1700000001500,
    Event.startRealtime (some (js "box@1secmail.com")) (some (js "1700000000000k3j9x0q2a")),
    Event.timerFire 0,
    Event.fetchDone 0 [sampleMessage] ]


/-- A maximal run of decimal digits of a text: a non-empty run of digits with no digit
right before it and none right after it. -/
def IsMaximalDigitRun (text d : JSString) : Prop :=
  ∃ pre post, text = pre ++ d ++ post ∧ d ≠ [] ∧ (∀ x ∈ d, isDigit x = true) ∧
    (∀ x, pre.getLast? = some x → isDigit x = false) ∧
    (∀ x, post.head? = some x → isDigit x = false)


/-! # Theorems -/

theorem matchRep_spec (p : Nat → Bool) (k : Option Nat → JSString → Option JSString)
    (R : JSString → JSString → Prop) (hk : ∀ prev inp m, k prev inp = some m → R inp m) :
    ∀ (inp : JSString) (min : Nat) (max prev : Option Nat) (m : JSString),
      matchRep p k min max prev inp = some m →
      ∃ a b rest, inp = a ++ rest ∧ m = a ++ b ∧ (∀ x ∈ a, p x = true) ∧ min ≤ a.length ∧
        (∀ n, max = some n → a.length ≤ n) ∧ R rest b := by
  intro inp
  induction inp with
  | nil =>
    intro min max prev m h
    simp only [matchRep] at h
    split at h
    · next h0 => exact ⟨[], m, [], rfl, rfl, by simp, by omega, by simp, hk _ _ _ h⟩
    · cases h
  | cons c cs ih =>
    intro min max prev m h
    have stay : (if min = 0 then k prev (c :: cs) else none) = some m →
        ∃ a b rest, c :: cs = a ++ rest ∧ m = a ++ b ∧ (∀ x ∈ a, p x = true) ∧ min ≤ a.length ∧
          (∀ n, max = some n → a.length ≤ n) ∧ R rest b := by
      intro h
      split at h
      · next h0 => exact ⟨[], m, c :: cs, rfl, rfl, by simp, by omega, by simp, hk _ _ _ h⟩
      · cases h
    simp only [matchRep] at h
    split at h
    · next hc =>
      simp only [Bool.and_eq_true] at hc
      split at h
      · next m1 hm1 =>
        obtain ⟨a, b, rest, h1, h2, h3, h4, h5, h6⟩ := ih _ _ _ _ hm1
        cases h
        refine ⟨c :: a, b, rest, by simp [h1], by simp [h2], ?_, by simp; omega, ?_, h6⟩
        · intro x hx
          rcases List.mem_cons.mp hx with rfl | hx
          · exact hc.2
          · exact h3 x hx
        · intro n hn
          subst hn
          have := h5 (n - 1) rfl
          have hpos : 0 < n := by simpa [canTake] using hc.1
          simp
          omega
      · exact stay h
    · exact stay h

theorem matchHere_spec (ic : Bool) : ∀ (atoms : List Atom) (prev : Option Nat) (inp m : JSString),
    matchHere ic atoms prev inp = some m → m <+: inp ∧ Conforms ic atoms m := by
  intro atoms
  induction atoms with
  | nil =>
    intro prev inp m h
    simp only [matchHere, Option.some.injEq] at h
    subst h
    exact ⟨List.nil_prefix, rfl⟩
  | cons a rest ih =>
    intro prev inp m h
    cases a with
    | lit u =>
      cases inp with
      | nil => simp [matchHere] at h
      | cons c cs =>
        have key : (if ic then canonicalize c = canonicalize u else c = u) ∧
            ∃ m', matchHere ic rest (some c) cs = some m' ∧ c :: m' = m := by
          cases ic <;> simpa [matchHere] using h
        obtain ⟨hc, m', hm', rfl⟩ := key
        obtain ⟨h1, h2⟩ := ih _ _ _ hm'
        refine ⟨?_, c, m', rfl, hc, h2⟩
        obtain ⟨t, ht⟩ := h1
        exact ⟨t, by simp [← ht]⟩
    | cls p min max =>
      simp only [matchHere] at h
      obtain ⟨a, b, r, h1, h2, h3, h4, h5, h6, h7⟩ :=
        matchRep_spec p (matchHere ic rest) (fun inp m => m <+: inp ∧ Conforms ic rest m)
          (fun prev inp m hm => ih prev inp m hm) _ _ _ _ _ h
      subst h1 h2
      refine ⟨?_, a, b, rfl, h3, h4, h5, h7⟩
      obtain ⟨t, ht⟩ := h6
      exact ⟨t, by simp [← ht]⟩
    | wordBoundary =>
      simp only [matchHere] at h
      split at h
      · exact ih _ _ _ h
      · cases h

theorem search_infix (re : RegExp) : ∀ (text : JSString) (prev : Option Nat) (m : JSString),
    search re prev text = some m →
      m <:+: text ∧ Conforms re.ignoreCase re.atoms m := by
  intro text
  induction text with
  | nil =>
    intro prev m h
    simp only [search] at h
    obtain ⟨h1, h2⟩ := matchHere_spec _ _ _ _ _ h
    exact ⟨h1.isInfix, h2⟩
  | cons c cs ih =>
    intro prev m h
    simp only [search] at h
    split at h
    · next m1 hm1 =>
      cases h
      obtain ⟨h1, h2⟩ := matchHere_spec _ _ _ _ _ hm1
      exact ⟨h1.isInfix, h2⟩
    · obtain ⟨h1, h2⟩ := ih _ _ h
      exact ⟨h1.trans (List.suffix_cons c cs).isInfix, h2⟩

theorem searchAll_head (re : RegExp) : ∀ (text : JSString) (prev : Option Nat),
    (searchAll re 0 prev text).head? = search re prev text := by
  intro text
  induction text with
  | nil =>
    intro prev
    simp only [searchAll, search]
    cases matchHere re.ignoreCase re.atoms prev [] <;> simp
  | cons c cs ih =>
    intro prev
    simp only [searchAll, search]
    cases matchHere re.ignoreCase re.atoms prev (c :: cs) with
    | none => simpa using ih (some c)
    | some m => simp

/-- The first element of the array returned by `match` is the leftmost match. -/
theorem strMatch_head (text : JSString) (re : RegExp) :
    strMatch text re = none ∧ search re none text = none ∨
    ∃ m ms, strMatch text re = some (m :: ms) ∧ search re none text = some m := by
  unfold strMatch
  cases hg : re.global with
  | false =>
    cases search re none text with
    | none => left; simp
    | some m => right; exact ⟨m, [], by simp⟩
  | true =>
    have h := searchAll_head re text none
    cases hs : searchAll re 0 none text with
    | nil =>
      rw [hs] at h
      left
      simp at h
      simp [h]
    | cons m ms =>
      rw [hs] at h
      right
      exact ⟨m, ms, by simp, by simpa using h.symm⟩

theorem canonicalize_digit (c u : Nat) (h : canonicalize c = canonicalize u)
    (hu : isDigit u = false) : isDigit c = false := by
  unfold canonicalize at h
  simp only [isDigit, Bool.and_eq_false_imp, decide_eq_true_eq, decide_eq_false_iff_not] at hu ⊢
  intro hc
  split at h <;> split at h <;> omega

theorem isSpace_not_digit (c : Nat) (h : isSpace c = true) : isDigit c = false := by
  simp only [isSpace, Bool.or_eq_true, Bool.and_eq_true, decide_eq_true_eq, beq_iff_eq] at h
  simp only [isDigit, Bool.and_eq_false_imp, decide_eq_true_eq, decide_eq_false_iff_not]
  omega

theorem isColonOrSpace_not_digit (c : Nat) (h : isColonOrSpace c = true) :
    isDigit c = false := by
  simp only [isColonOrSpace, Bool.or_eq_true, beq_iff_eq] at h
  rcases h with rfl | h
  · decide
  · exact isSpace_not_digit c h

theorem conforms_append (ic : Bool) : ∀ (pre post : List Atom) (m : JSString),
    Conforms ic (pre ++ post) m →
      ∃ m1 m2, m = m1 ++ m2 ∧ Conforms ic pre m1 ∧ Conforms ic post m2 := by
  intro pre
  induction pre with
  | nil => intro post m h; exact ⟨[], m, rfl, rfl, h⟩
  | cons a pre ih =>
    intro post m h
    cases a with
    | lit u =>
      obtain ⟨c, m', rfl, hc, h'⟩ := h
      obtain ⟨m1, m2, rfl, h1, h2⟩ := ih _ _ h'
      exact ⟨c :: m1, m2, rfl, ⟨c, m1, rfl, hc, h1⟩, h2⟩
    | cls p min max =>
      obtain ⟨a, b, rfl, ha, hmin, hmax, h'⟩ := h
      obtain ⟨m1, m2, rfl, h1, h2⟩ := ih _ _ h'
      exact ⟨a ++ m1, m2, by simp, ⟨a, m1, rfl, ha, hmin, hmax, h1⟩, h2⟩
    | wordBoundary =>
      obtain ⟨m1, m2, rfl, h1, h2⟩ := ih _ _ h
      exact ⟨m1, m2, rfl, h1, h2⟩

theorem conforms_nonDigit (ic : Bool) : ∀ (atoms : List Atom) (m : JSString),
    (∀ a ∈ atoms, NonDigitAtom a) → Conforms ic atoms m → ∀ x ∈ m, isDigit x = false := by
  intro atoms
  induction atoms with
  | nil => intro m _ h; cases h; simp
  | cons a atoms ih =>
    intro m hnd h
    have hrest : ∀ a ∈ atoms, NonDigitAtom a := fun b hb => hnd b (List.mem_cons_of_mem _ hb)
    have ha : NonDigitAtom a := hnd a (List.mem_cons_self _ _)
    cases a with
    | lit u =>
      obtain ⟨c, m', rfl, hc, h'⟩ := h
      intro x hx
      rcases List.mem_cons.mp hx with rfl | hx
      · cases ic
        · simp only [Bool.false_eq_true, if_false] at hc
          subst hc
          exact ha
        · simp only [if_true] at hc
          exact canonicalize_digit _ _ hc ha
      · exact ih _ hrest h' x hx
    | cls p min max =>
      obtain ⟨a, b, rfl, hp, _, _, h'⟩ := h
      intro x hx
      rcases List.mem_append.mp hx with hx | hx
      · exact ha x (hp x hx)
      · exact ih _ hrest h' x hx
    | wordBoundary => exact ih _ hrest h

/-- Shape of whatever an OTP-shaped pattern matches: a 4 to 6 digit run between two
digit-free texts. -/
theorem conforms_otpShaped (re : RegExp) (h : OTPShaped re) (m : JSString)
    (hm : Conforms re.ignoreCase re.atoms m) :
    ∃ nd1 d nd2, m = nd1 ++ d ++ nd2 ∧ (∀ x ∈ nd1, isDigit x = false) ∧
      (∀ x ∈ d, isDigit x = true) ∧ 4 ≤ d.length ∧ d.length ≤ 6 ∧
      (∀ x ∈ nd2, isDigit x = false) := by
  obtain ⟨pre, post, hat, hpre, hpost⟩ := h
  rw [hat] at hm
  obtain ⟨m1, m2, rfl, h1, h2⟩ := conforms_append _ _ _ _ hm
  obtain ⟨d, b, rfl, hd, hmin, hmax, h3⟩ := h2
  exact ⟨m1, d, b, by simp, conforms_nonDigit _ _ _ hpre h1, hd, hmin, hmax 6 rfl,
    conforms_nonDigit _ _ _ hpost h3⟩

theorem matchRep_digits (tail : JSString) (ht : ∀ x, tail.head? = some x → isDigit x = false) :
    ∀ (d : JSString) (min : Nat) (prev : Option Nat), (∀ x ∈ d, isDigit x = true) →
      min ≤ d.length →
      matchRep isDigit (matchHere false []) min none prev (d ++ tail) = some d := by
  intro d
  induction d with
  | nil =>
    intro min prev _ hmin
    have h0 : min = 0 := by simpa using hmin
    subst h0
    cases tail with
    | nil => simp [matchRep, matchHere]
    | cons c cs =>
      have := ht c rfl
      simp [matchRep, matchHere, this]
  | cons c cs ih =>
    intro min prev hd hmin
    have hc : isDigit c = true := hd c (List.mem_cons_self _ _)
    have := ih (min - 1) (some c) (fun x hx => hd x (List.mem_cons_of_mem _ hx))
      (by simp at hmin; omega)
    simp [matchRep, canTake, takeOne, hc, this]

theorem search_of_matchHere (re : RegExp) (prev : Option Nat) (text m : JSString)
    (h : matchHere re.ignoreCase re.atoms prev text = some m) : search re prev text = some m := by
  cases text with
  | nil => rw [search, h]
  | cons c cs => rw [search, h]

theorem search_cons_of_none (re : RegExp) (prev : Option Nat) (c : Nat) (cs : JSString)
    (h : matchHere re.ignoreCase re.atoms prev (c :: cs) = none) :
    search re prev (c :: cs) = search re (some c) cs := by
  rw [search, h]

theorem search_digits (d tail : JSString) (hd : ∀ x ∈ d, isDigit x = true) (hne : d ≠ [])
    (ht : ∀ x, tail.head? = some x → isDigit x = false) :
    ∀ (nd : JSString) (prev : Option Nat), (∀ x ∈ nd, isDigit x = false) →
      search digitsRe prev (nd ++ d ++ tail) = some d := by
  intro nd
  induction nd with
  | nil =>
    intro prev _
    have hlen : 1 ≤ d.length := by
      cases d with
      | nil => exact absurd rfl hne
      | cons _ _ => simp
    apply search_of_matchHere
    exact matchRep_digits tail ht d 1 prev hd hlen
  | cons x nd ih =>
    intro prev hnd
    have hx : isDigit x = false := hnd x (List.mem_cons_self _ _)
    have hnone : matchHere digitsRe.ignoreCase digitsRe.atoms prev (x :: (nd ++ d ++ tail))
        = none := by
      simp [digitsRe, matchHere, matchRep, hx]
    have := search_cons_of_none digitsRe prev x (nd ++ d ++ tail) hnone
    rw [List.cons_append, List.cons_append, this]
    exact ih (some x) (fun y hy => hnd y (List.mem_cons_of_mem _ hy))

/-- The call `match[0].match(/\d+/)` on a text `nd1 ++ d ++ nd2` returns the digits `d`. -/
theorem strMatch_digits (nd1 d nd2 : JSString) (h1 : ∀ x ∈ nd1, isDigit x = false)
    (hd : ∀ x ∈ d, isDigit x = true) (hne : d ≠ []) (h2 : ∀ x ∈ nd2, isDigit x = false) :
    strMatch (nd1 ++ d ++ nd2) digitsRe = some [d] := by
  have ht : ∀ x, nd2.head? = some x → isDigit x = false := by
    intro x hx
    exact h2 x (List.mem_of_mem_head? hx)
  have := search_digits d nd2 hd hne ht nd1 none h1
  simp [strMatch, digitsRe] at this ⊢
  exact this

theorem lits_nonDigit (s : String) (h : ∀ u ∈ js s, isDigit u = false) :
    ∀ a ∈ lits s, NonDigitAtom a := by
  intro a ha
  simp only [lits, List.mem_map] at ha
  obtain ⟨u, hu, rfl⟩ := ha
  exact h u hu

theorem nonDigit_colonOrSpace (min : Nat) (max : Option Nat) :
    NonDigitAtom (Atom.cls isColonOrSpace min max) := isColonOrSpace_not_digit

theorem nonDigit_space (min : Nat) (max : Option Nat) :
    NonDigitAtom (Atom.cls isSpace min max) := isSpace_not_digit

theorem otpPatterns_shaped : ∀ re ∈ otpPatterns, OTPShaped re := by
  intro re hre
  simp only [otpPatterns, List.mem_cons, List.mem_singleton, List.not_mem_nil, or_false] at hre
  rcases hre with rfl | rfl | rfl | rfl | rfl | rfl <;>
    simp only [bareRe, codeRe, otpRe, verificationRe, isYourCodeRe, yourCodeIsRe]
  · exact ⟨[Atom.wordBoundary], [Atom.wordBoundary], rfl, by simp [NonDigitAtom],
      by simp [NonDigitAtom]⟩
  · refine ⟨lits "code" ++ [Atom.cls isColonOrSpace 0 none], [], by simp, ?_, by simp⟩
    intro a ha
    rcases List.mem_append.mp ha with ha | ha
    · exact lits_nonDigit _ (by decide) a ha
    · rw [List.mem_singleton.mp ha]; exact nonDigit_colonOrSpace _ _
  · refine ⟨lits "otp" ++ [Atom.cls isColonOrSpace 0 none], [], by simp, ?_, by simp⟩
    intro a ha
    rcases List.mem_append.mp ha with ha | ha
    · exact lits_nonDigit _ (by decide) a ha
    · rw [List.mem_singleton.mp ha]; exact nonDigit_colonOrSpace _ _
  · refine ⟨lits "verification" ++ [Atom.cls isColonOrSpace 0 none], [], by simp, ?_, by simp⟩
    intro a ha
    rcases List.mem_append.mp ha with ha | ha
    · exact lits_nonDigit _ (by decide) a ha
    · rw [List.mem_singleton.mp ha]; exact nonDigit_colonOrSpace _ _
  · refine ⟨[], Atom.cls isSpace 0 none :: lits "is your code", by simp, by simp, ?_⟩
    intro a ha
    rcases List.mem_cons.mp ha with ha | ha
    · rw [ha]; exact nonDigit_space _ _
    · exact lits_nonDigit _ (by decide) a ha
  · refine ⟨lits "your code is" ++ [Atom.cls isSpace 0 none], [], by simp, ?_, by simp⟩
    intro a ha
    rcases List.mem_append.mp ha with ha | ha
    · exact lits_nonDigit _ (by decide) a ha
    · rw [List.mem_singleton.mp ha]; exact nonDigit_space _ _

/-- What one iteration of the loop of `extractOTP` finds when its pattern matches: the
whole match lies in the text, and `/\d+/` on it gives a run of 4 to 6 digits. -/
theorem otp_match_digits (re : RegExp) (hre : OTPShaped re) (text m0 : JSString)
    (ms : List JSString) (h : strMatch text re = some (m0 :: ms)) :
    ∃ nd1 d nd2, m0 = nd1 ++ d ++ nd2 ∧ m0 <:+: text ∧ strMatch m0 digitsRe = some [d] ∧
      (∀ x ∈ nd1, isDigit x = false) ∧ (∀ x ∈ d, isDigit x = true) ∧
      4 ≤ d.length ∧ d.length ≤ 6 ∧ (∀ x ∈ nd2, isDigit x = false) := by
  rcases strMatch_head text re with ⟨h1, _⟩ | ⟨m, ms', h1, h2⟩
  · rw [h1] at h; cases h
  · rw [h1] at h
    cases h
    obtain ⟨hin, hconf⟩ := search_infix re text none m0 h2
    obtain ⟨nd1, d, nd2, rfl, hnd1, hd, hmin, hmax, hnd2⟩ := conforms_otpShaped re hre m0 hconf
    have hne : d ≠ [] := by
      intro h0
      subst h0
      simp at hmin
    exact ⟨nd1, d, nd2, rfl, hin, strMatch_digits nd1 d nd2 hnd1 hd hne hnd2, hnd1, hd, hmin,
      hmax, hnd2⟩

theorem strMatch_ne_nil (text : JSString) (re : RegExp) : strMatch text re ≠ some [] := by
  rcases strMatch_head text re with ⟨h, _⟩ | ⟨m, ms, h, _⟩ <;> rw [h] <;> simp

theorem extractOTPLoop_skip (text : JSString) (re : RegExp) (rest : List RegExp)
    (h : strMatch text re = none) :
    extractOTPLoop text (re :: rest) = extractOTPLoop text rest := by
  simp [extractOTPLoop, h]

theorem extractOTPLoop_hit (text : JSString) (re : RegExp) (rest : List RegExp)
    (m0 d : JSString) (ms : List JSString) (h : strMatch text re = some (m0 :: ms))
    (hd : strMatch m0 digitsRe = some [d]) (hlen : 4 ≤ d.length) :
    extractOTPLoop text (re :: rest) = some d := by
  simp [extractOTPLoop, h, hd, hlen]

theorem extractOTPLoop_spec (text : JSString) : ∀ (ps : List RegExp),
    (∀ re ∈ ps, OTPShaped re) → ∀ code, extractOTPLoop text ps = some code →
    ∃ (i : Nat) (re : RegExp) (m0 : JSString) (ms : List JSString),
      ps[i]? = some re ∧ strMatch text re = some (m0 :: ms) ∧
      (∀ j re', j < i → ps[j]? = some re' → strMatch text re' = none) ∧
      strMatch m0 digitsRe = some [code] ∧ m0 <:+: text ∧
      ∃ nd1 nd2, m0 = nd1 ++ code ++ nd2 ∧ (∀ x ∈ nd1, isDigit x = false) ∧
        (∀ x ∈ code, isDigit x = true) ∧ 4 ≤ code.length ∧ code.length ≤ 6 ∧
        (∀ x ∈ nd2, isDigit x = false) := by
  intro ps
  induction ps with
  | nil => intro _ code h; simp [extractOTPLoop] at h
  | cons re rest ih =>
    intro hs code h
    rcases strMatch_head text re with ⟨hn, _⟩ | ⟨m, ms, hm, _⟩
    · rw [extractOTPLoop_skip text re rest hn] at h
      obtain ⟨i, re1, m0, ms, h1, h2, h3, h4⟩ :=
        ih (fun r hr => hs r (List.mem_cons_of_mem _ hr)) code h
      refine ⟨i + 1, re1, m0, ms, by simpa using h1, h2, ?_, h4⟩
      intro j re' hj hre'
      cases j with
      | zero =>
        simp only [List.getElem?_cons_zero, Option.some.injEq] at hre'
        subst hre'
        exact hn
      | succ j => exact h3 j re' (by omega) (by simpa using hre')
    · obtain ⟨nd1, d, nd2, h0, hin, hdig, h1, h2, h3, h4, h5⟩ :=
        otp_match_digits re (hs re (List.mem_cons_self _ _)) text m ms hm
      rw [extractOTPLoop_hit text re rest m d ms hm hdig h3] at h
      cases h
      exact ⟨0, re, m, ms, by simp, hm, by intro j _ hj; omega, hdig, hin,
        nd1, nd2, h0, h1, h2, h3, h4, h5⟩

theorem le_longestRunFrom : ∀ (text : JSString) (cur best : Nat),
    cur ≤ longestRunFrom cur best text ∧ best ≤ longestRunFrom cur best text := by
  intro text
  induction text with
  | nil => intro cur best; simp [longestRunFrom]
  | cons c cs ih =>
    intro cur best
    simp only [longestRunFrom]
    split
    · have := ih (cur + 1) best
      omega
    · have := ih 0 (max cur best)
      omega

theorem digits_run_le : ∀ (d text : JSString) (cur best : Nat), d <+: text →
    (∀ x ∈ d, isDigit x = true) → cur + d.length ≤ longestRunFrom cur best text := by
  intro d
  induction d with
  | nil => intro text cur best _ _; simpa using (le_longestRunFrom text cur best).1
  | cons x d ih =>
    intro text cur best hp hd
    cases text with
    | nil => simp at hp
    | cons c cs =>
      rw [List.cons_prefix_cons] at hp
      obtain ⟨rfl, hp⟩ := hp
      have hx : isDigit x = true := hd x (List.mem_cons_self _ _)
      have := ih cs (cur + 1) best hp (fun y hy => hd y (List.mem_cons_of_mem _ hy))
      simp only [longestRunFrom, hx, if_true, List.length_cons]
      omega

theorem digits_infix_le : ∀ (text d : JSString) (cur best : Nat), d <:+: text →
    (∀ x ∈ d, isDigit x = true) → d.length ≤ longestRunFrom cur best text := by
  intro text
  induction text with
  | nil =>
    intro d cur best h _
    have : d = [] := by simpa using h
    subst this
    simp
  | cons c cs ih =>
    intro d cur best h hd
    rcases List.infix_cons_iff.mp h with h | h
    · have := digits_run_le d (c :: cs) cur best h hd
      omega
    · simp only [longestRunFrom]
      split
      · exact ih d _ _ h hd
      · exact ih d _ _ h hd

theorem head?_dropWhile_isDigit (l : JSString) :
    ∀ x, (l.dropWhile isDigit).head? = some x → isDigit x = false := by
  intro x hx
  have := List.head?_dropWhile_not isDigit l
  rw [hx] at this
  exact this

/-- A run of digits in a text lies inside a maximal run. -/
theorem exists_maximal_run (text d : JSString) (hne : d ≠ []) (hd : ∀ x ∈ d, isDigit x = true)
    (hin : d <:+: text) : ∃ d', IsMaximalDigitRun text d' ∧ d.length ≤ d'.length := by
  obtain ⟨pre, post, rfl⟩ := hin
  have hpost : post = post.takeWhile isDigit ++ post.dropWhile isDigit :=
    (List.takeWhile_append_dropWhile isDigit post).symm
  have hpre : pre = (pre.reverse.dropWhile isDigit).reverse ++
      (pre.reverse.takeWhile isDigit).reverse := by
    rw [← List.reverse_append, List.takeWhile_append_dropWhile, List.reverse_reverse]
  refine ⟨(pre.reverse.takeWhile isDigit).reverse ++ d ++ post.takeWhile isDigit,
    ⟨(pre.reverse.dropWhile isDigit).reverse, post.dropWhile isDigit, ?_, ?_, ?_, ?_, ?_⟩, ?_⟩
  · conv_lhs => rw [hpre, hpost]
    simp only [List.append_assoc]
  · intro h
    simp only [List.append_eq_nil] at h
    exact hne h.1.2
  · intro x hx
    simp only [List.mem_append, List.mem_reverse] at hx
    rcases hx with (hx | hx) | hx
    · exact List.mem_takeWhile_imp hx
    · exact hd x hx
    · exact List.mem_takeWhile_imp hx
  · intro x hx
    rw [List.getLast?_reverse] at hx
    exact head?_dropWhile_isDigit _ x hx
  · exact head?_dropWhile_isDigit post
  · simp only [List.length_append]
    omega

/-- Every maximal run of digits is at most as long as `longestDigitRun` says. -/
theorem maximal_run_le_longest (text d : JSString) (h : IsMaximalDigitRun text d) :
    d.length ≤ longestDigitRun text := by
  obtain ⟨pre, post, rfl, -, hd, -, -⟩ := h
  exact digits_infix_le _ d 0 0 ⟨pre, post, rfl⟩ hd

/-- C8. A text in which every maximal run of decimal digits is shorter than 4 characters
(so also a text without digits) makes `extractOTP` return `null`. -/
theorem extractOTP_none_of_short_digit_runs (text : JSString)
    (h : ∀ d, IsMaximalDigitRun text d → d.length < 4) : extractOTP text = none := by
  cases hr : extractOTP text with
  | none => rfl
  | some code =>
    obtain ⟨i, re, m0, ms, -, -, -, -, hin, nd1, nd2, rfl, -, hd, hmin, -, -⟩ :=
      extractOTPLoop_spec text otpPatterns otpPatterns_shaped code hr
    have hcode : code <:+: text :=
      (List.infix_append nd1 code nd2).trans hin
    have hne : code ≠ [] := by
      intro h0
      subst h0
      simp at hmin
    obtain ⟨d', hmax, hlen⟩ := exists_maximal_run text code hne hd hcode
    have := h d' hmax
    omega

/-- C8 (witness). A text whose digit runs have 3, 2 and 3 digits. -/
theorem extractOTP_none_of_short_digit_runs_witness :
    (∀ d, IsMaximalDigitRun (js "Your PIN is 123, ref 45-678") d → d.length < 4) ∧
      extractOTP (js "Your PIN is 123, ref 45-678") = none :=
  have h : ∀ d, IsMaximalDigitRun (js "Your PIN is 123, ref 45-678") d → d.length < 4 := by
    intro d hd
    have h1 := maximal_run_le_longest _ d hd
    have h2 : longestDigitRun (js "Your PIN is 123, ref 45-678") = 3 := by decide
    omega
  ⟨h, extractOTP_none_of_short_digit_runs _ h⟩

/-- C10. When `extractOTP` returns a code, the code is a run of 4 to 6 decimal digits that
occurs in the text; it is what `/\d+/` finds in the match of the first pattern of
`otpPatterns`, in list order, that matches the text, and that match is the code between two
digit-free texts.  For every pattern and text the length test that follows a match
succeeds, so a pattern that matches always ends the loop. -/
theorem extractOTP_first_matching_pattern (text code : JSString)
    (h : extractOTP text = some code) :
    (4 ≤ code.length ∧ code.length ≤ 6 ∧ (∀ x ∈ code, isDigit x = true) ∧ code <:+: text) ∧
    (∃ (i : Nat) (re : RegExp) (m0 : JSString) (ms : List JSString),
      otpPatterns[i]? = some re ∧ strMatch text re = some (m0 :: ms) ∧
      (∀ j re', j < i → otpPatterns[j]? = some re' → strMatch text re' = none) ∧
      strMatch m0 digitsRe = some [code] ∧
      ∃ nd1 nd2, m0 = nd1 ++ code ++ nd2 ∧ (∀ x ∈ nd1, isDigit x = false) ∧
        (∀ x ∈ nd2, isDigit x = false)) ∧
    (∀ re ∈ otpPatterns, ∀ (t m0 : JSString) (ms : List JSString),
      strMatch t re = some (m0 :: ms) →
        ∃ numbers0, strMatch m0 digitsRe = some [numbers0] ∧ 4 ≤ numbers0.length) := by
  obtain ⟨i, re, m0, ms, h1, h2, h3, h4, hin, nd1, nd2, h5, h6, h7, h8, h9, h10⟩ :=
    extractOTPLoop_spec text otpPatterns otpPatterns_shaped code h
  refine ⟨⟨h8, h9, h7, ?_⟩, ⟨i, re, m0, ms, h1, h2, h3, h4, nd1, nd2, h5, h6, h10⟩, ?_⟩
  · rw [h5] at hin
    exact (List.infix_append nd1 code nd2).trans hin
  · intro re hre t m0 ms hm
    obtain ⟨_, d, _, _, _, hdig, _, _, hlen, _, _⟩ :=
      otp_match_digits re (otpPatterns_shaped re hre) t m0 ms hm
    exact ⟨d, hdig, hlen⟩

/-- C10 (witness). An 8-digit run after `code:`: only the second pattern matches. -/
theorem extractOTP_first_matching_pattern_witness :
    extractOTP (js "Use code: 12345678 now") = some (js "123456") ∧
    ((4 ≤ (js "123456").length ∧ (js "123456").length ≤ 6 ∧
        (∀ x ∈ js "123456", isDigit x = true) ∧ js "123456" <:+: js "Use code: 12345678 now") ∧
    (∃ (i : Nat) (re : RegExp) (m0 : JSString) (ms : List JSString),
      otpPatterns[i]? = some re ∧ strMatch (js "Use code: 12345678 now") re = some (m0 :: ms) ∧
      (∀ j re', j < i → otpPatterns[j]? = some re' →
        strMatch (js "Use code: 12345678 now") re' = none) ∧
      strMatch m0 digitsRe = some [js "123456"] ∧
      ∃ nd1 nd2, m0 = nd1 ++ js "123456" ++ nd2 ∧ (∀ x ∈ nd1, isDigit x = false) ∧
        (∀ x ∈ nd2, isDigit x = false)) ∧
    (∀ re ∈ otpPatterns, ∀ (t m0 : JSString) (ms : List JSString),
      strMatch t re = some (m0 :: ms) →
        ∃ numbers0, strMatch m0 digitsRe = some [numbers0] ∧ 4 ≤ numbers0.length)) :=
  ⟨by decide, extractOTP_first_matching_pattern _ _ (by decide)⟩

theorem lastChar_eq : ∀ (d : JSString) (prev : Option Nat),
    lastChar prev d = match d.getLast? with
      | some x => some x
      | none => prev := by
  intro d
  induction d with
  | nil => intro prev; rfl
  | cons c cs ih =>
    intro prev
    have h1 : lastChar prev (c :: cs) = lastChar (some c) cs := rfl
    rw [h1, ih (some c), List.getLast?_cons]
    cases cs.getLast? <;> rfl

theorem matchRep_all (p : Nat → Bool) (k : Option Nat → JSString → Option JSString)
    (tail r : JSString) (ht : ∀ x, tail.head? = some x → p x = false) :
    ∀ (d : JSString) (min : Nat) (max prev : Option Nat), (∀ x ∈ d, p x = true) →
      min ≤ d.length → (∀ n, max = some n → d.length ≤ n) →
      k (lastChar prev d) tail = some r →
      matchRep p k min max prev (d ++ tail) = some (d ++ r) := by
  intro d
  induction d with
  | nil =>
    intro min max prev _ hmin _ hk
    have h0 : min = 0 := by simpa using hmin
    subst h0
    have hk' : k prev tail = some r := hk
    cases tail with
    | nil => simp [matchRep, hk']
    | cons c cs =>
      have := ht c rfl
      simp [matchRep, hk', this]
  | cons c cs ih =>
    intro min max prev hd hmin hmax hk
    have hc : p c = true := hd c (List.mem_cons_self _ _)
    have hcan : canTake max = true := by
      cases max with
      | none => rfl
      | some n =>
        have := hmax n rfl
        simp only [List.length_cons] at this
        simp [canTake]
        omega
    have hrec := ih (min - 1) (takeOne max) (some c)
      (fun x hx => hd x (List.mem_cons_of_mem _ hx)) (by simp at hmin; omega)
      (by
        intro n hn
        cases max with
        | none => simp [takeOne] at hn
        | some n' =>
          have := hmax n' rfl
          simp only [takeOne, Option.some.injEq] at hn
          simp only [List.length_cons] at this
          omega)
      hk
    simp [matchRep, hcan, hc, hrec]

theorem isDigit_isWordChar (x : Nat) (h : isDigit x = true) : isWordChar x = true := by
  simp [isWordChar, h]

theorem lastChar_digits : ∀ (d : JSString) (prev : Option Nat), d ≠ [] →
    (∀ x ∈ d, isDigit x = true) → isWordAt (lastChar prev d) = true := by
  intro d prev hne hd
  rw [lastChar_eq]
  cases hl : d.getLast? with
  | none => simp [List.getLast?_eq_none_iff] at hl; exact absurd hl hne
  | some x => exact isDigit_isWordChar x (hd x (List.mem_of_getLast?_eq_some hl))

theorem search_bare (ds b : JSString) (hd : ∀ x ∈ ds, isDigit x = true) (hmin : 4 ≤ ds.length)
    (hmax : ds.length ≤ 6) (hb : isWordAt b.head? = false) :
    ∀ (a : JSString) (prev : Option Nat), (∀ x ∈ a, isDigit x = false) →
      isWordAt (lastChar prev a) = false → search bareRe prev (a ++ ds ++ b) = some ds := by
  have hne : ds ≠ [] := by
    intro h0
    subst h0
    simp at hmin
  intro a
  induction a with
  | nil =>
    intro prev _ hprev
    apply search_of_matchHere
    have hprev' : isWordAt prev = false := hprev
    have hhead : isWordAt (ds ++ b).head? = true := by
      cases ds with
      | nil => exact absurd rfl hne
      | cons c cs => exact isDigit_isWordChar c (hd c (List.mem_cons_self _ _))
    have hk : matchHere false [Atom.wordBoundary] (lastChar prev ds) b = some [] := by
      simp [matchHere, lastChar_digits ds prev hne hd, hb]
    have ht : ∀ x, b.head? = some x → isDigit x = false := by
      intro x hx
      rw [hx] at hb
      cases hdx : isDigit x with
      | false => rfl
      | true => rw [show isWordAt (some x) = isWordChar x from rfl,
          isDigit_isWordChar x hdx] at hb; cases hb
    have := matchRep_all isDigit (matchHere false [Atom.wordBoundary]) b [] ht ds 4 (some 6)
      prev hd hmin (by intro n hn; cases hn; exact hmax) hk
    show matchHere false [Atom.wordBoundary, Atom.cls isDigit 4 (some 6), Atom.wordBoundary]
      prev ([] ++ ds ++ b) = some ds
    have hb1 : (false != true) = true := rfl
    rw [matchHere, hprev', List.nil_append, hhead, if_pos hb1, matchHere]
    simpa using this
  | cons x a ih =>
    intro prev ha hprev
    have hx : isDigit x = false := ha x (List.mem_cons_self _ _)
    have hnone : matchHere bareRe.ignoreCase bareRe.atoms prev (x :: (a ++ ds ++ b)) = none := by
      simp [bareRe, matchHere, matchRep, hx]
    rw [List.cons_append, List.cons_append, search_cons_of_none bareRe prev x _ hnone]
    exact ih (some x) (fun y hy => ha y (List.mem_cons_of_mem _ hy)) hprev

theorem extractOTP_of_bare (text m : JSString) (ms : List JSString)
    (h : strMatch text bareRe = some (m :: ms)) : extractOTP text = some m := by
  have hs : OTPShaped bareRe := otpPatterns_shaped bareRe (by simp [otpPatterns])
  obtain ⟨nd1, d, nd2, h0, -, hdig, h1, h2, h3, h4, h5⟩ :=
    otp_match_digits bareRe hs text m ms h
  have hm : m = d := by
    rcases strMatch_head text bareRe with ⟨hn, _⟩ | ⟨m', ms', hm', hsearch⟩
    · rw [hn] at h; cases h
    · rw [hm'] at h
      cases h
      obtain ⟨_, hconf⟩ := search_infix bareRe text none m hsearch
      obtain ⟨a, b, rfl, ha, -, -, hb⟩ := hconf
      have hb' : b = [] := hb
      subst hb'
      have h0' : a = nd1 ++ d ++ nd2 := by simpa using h0
      have hnd1 : nd1 = [] := by
        cases nd1 with
        | nil => rfl
        | cons x xs =>
          have h6 := h1 x (List.mem_cons_self _ _)
          have h7 := ha x (by rw [h0']; simp)
          rw [h6] at h7
          cases h7
      have hnd2 : nd2 = [] := by
        cases nd2 with
        | nil => rfl
        | cons x xs =>
          have h6 := h5 x (List.mem_cons_self _ _)
          have h7 := ha x (by rw [h0']; simp)
          rw [h6] at h7
          cases h7
      subst hnd1 hnd2
      simpa using h0
  subst hm
  exact extractOTPLoop_hit text bareRe _ m m ms h hdig h3

/-- C1 (counterexample). In `654321 ... code: 123456` the bare run comes first and
`extractOTP` returns it, not the digits that follow `code:`. -/
theorem extractOTP_bare_run_before_code :
    extractOTP (js "654321 ... code: 123456") = some (js "654321") ∧
      extractOTP (js "654321 ... code: 123456") ≠ some (js "123456") := by
  decide

/-- C1 (amended). The bare pattern `/\b\d{4,6}\b/g` is tried first: whenever it matches,
`extractOTP` returns its first match, whatever the five specific patterns would find.  So
for a text `a ++ ds ++ b` whose first digit run `ds` has 4 to 6 digits and stands between
non-word characters (or the ends of the text), the result is `ds`: the digits after
`code:` in `code: 123456 ... 654321`, the bare run in `654321 ... code: 123456`. -/
theorem extractOTP_returns_first_bare_run :
    (∀ (text m : JSString) (ms : List JSString),
      strMatch text bareRe = some (m :: ms) → extractOTP text = some m) ∧
    (∀ a ds b : JSString, (∀ x ∈ a, isDigit x = false) → isWordAt a.getLast? = false →
      (∀ x ∈ ds, isDigit x = true) → 4 ≤ ds.length → ds.length ≤ 6 →
      isWordAt b.head? = false → extractOTP (a ++ ds ++ b) = some ds) := by
  refine ⟨extractOTP_of_bare, ?_⟩
  intro a ds b ha hlast hd hmin hmax hb
  have hprev : isWordAt (lastChar none a) = false := by
    rw [lastChar_eq]
    cases hl : a.getLast? with
    | none => rfl
    | some x => rw [hl] at hlast; exact hlast
  have hsearch := search_bare ds b hd hmin hmax hb a none ha hprev
  rcases strMatch_head (a ++ ds ++ b) bareRe with ⟨_, hn⟩ | ⟨m, ms, hm, hs⟩
  · rw [hn] at hsearch; cases hsearch
  · rw [hs] at hsearch
    cases hsearch
    exact extractOTP_of_bare _ _ ms hm

/-- C1 (witness). The two orders of the bare run and the `code:` pattern. -/
theorem extractOTP_returns_first_bare_run_witness :
    (strMatch (js "654321 ... code: 123456") bareRe = some [js "654321", js "123456"] ∧
      extractOTP (js "654321 ... code: 123456") = some (js "654321")) ∧
    ((∀ x ∈ js "code: ", isDigit x = false) ∧ isWordAt (js "code: ").getLast? = false ∧
      (∀ x ∈ js "123456", isDigit x = true) ∧ 4 ≤ (js "123456").length ∧
      (js "123456").length ≤ 6 ∧ isWordAt (js " ... 654321").head? = false ∧
      extractOTP (js "code: " ++ js "123456" ++ js " ... 654321") = some (js "123456")) :=
  ⟨⟨by decide, extractOTP_returns_first_bare_run.1 _ _ [js "123456"] (by decide)⟩,
    by decide, by decide, by decide, by decide, by decide, by decide,
    extractOTP_returns_first_bare_run.2 (js "code: ") (js "123456") (js " ... 654321")
      (by decide) (by decide) (by decide) (by decide) (by decide) (by decide)⟩

theorem readMessageTry_requests (env : Env) (email login domain : JSString) (item : ListItem)
    (t : Trace) :
    (readMessageTry env email login domain (some item) t).2.requests =
      t.requests ++ [Request.readMessage login domain item.id] := by
  simp only [readMessageTry, axiosGet]
  cases env.get t.requests.length (Request.readMessage login domain item.id) with
  | error e => rfl
  | ok data =>
    cases data with
    | null => rfl
    | array items => simp only; cases (finalMessageData env item (ResponseData.array items)).otp <;> rfl
    | body a b => simp only; cases (finalMessageData env item (ResponseData.body a b)).otp <;> rfl
    | other => simp only; cases (finalMessageData env item ResponseData.other).otp <;> rfl

theorem readMessageTry_ok (env : Env) (email login domain : JSString) (item : ListItem)
    (t : Trace) (data : ResponseData)
    (h : env.get t.requests.length (Request.readMessage login domain item.id) = Except.ok data)
    (hnull : data ≠ ResponseData.null) :
    (readMessageTry env email login domain (some item) t).1 =
      Except.ok (finalMessageData env item data) := by
  simp only [readMessageTry, axiosGet, h]
  cases data with
  | null => exact absurd rfl hnull
  | array items => cases (finalMessageData env item (ResponseData.array items)).otp <;> rfl
  | body a b => cases (finalMessageData env item (ResponseData.body a b)).otp <;> rfl
  | other => cases (finalMessageData env item ResponseData.other).otp <;> rfl

theorem readMessageTry_fail (env : Env) (email login domain : JSString) (item : ListItem)
    (t : Trace)
    (h : (∃ e, env.get t.requests.length (Request.readMessage login domain item.id) =
        Except.error e) ∨
      env.get t.requests.length (Request.readMessage login domain item.id) =
        Except.ok ResponseData.null) :
    ∃ e, (readMessageTry env email login domain (some item) t).1 = Except.error e := by
  rcases h with ⟨e, h⟩ | h
  · exact ⟨e, by simp only [readMessageTry, axiosGet, h]⟩
  · exact ⟨nullBodyError, by simp only [readMessageTry, axiosGet, h]⟩

theorem checkLoop_cons_ok (env : Env) (email login domain : JSString) (msg : Option ListItem)
    (rest : List (Option ListItem)) (acc : List MessageData) (t t1 : Trace) (md : MessageData)
    (h : readMessageTry env email login domain msg t = (Except.ok md, t1)) :
    checkLoop env email login domain (msg :: rest) acc t =
      checkLoop env email login domain rest (acc ++ [md]) t1 := by
  simp only [checkLoop, h]

theorem checkLoop_cons_error (env : Env) (email login domain : JSString) (item : ListItem)
    (rest : List (Option ListItem)) (acc : List MessageData) (t t1 : Trace) (e : JSString)
    (h : readMessageTry env email login domain (some item) t = (Except.error e, t1)) :
    checkLoop env email login domain (some item :: rest) acc t =
      checkLoop env email login domain rest acc
        { t1 with log := t1.log ++ [LogLine.messageError item.id email e] } := by
  simp only [checkLoop, h]

/-- The loop over a list of message headers (no `null` element): the messages of the items
whose detail fetch does not throw are pushed, in order. -/
theorem checkLoop_spec (env : Env) (email login domain : JSString) (F : Finset Nat)
    (data : Nat → ResponseData) :
    ∀ (items : List ListItem) (acc : List MessageData) (t : Trace) (j : Nat),
      (∀ k item, items[k]? = some item →
        (j + k ∈ F → (∃ e, env.get (t.requests.length + k)
            (Request.readMessage login domain item.id) = Except.error e) ∨
          env.get (t.requests.length + k)
            (Request.readMessage login domain item.id) = Except.ok ResponseData.null) ∧
        (j + k ∉ F → env.get (t.requests.length + k)
            (Request.readMessage login domain item.id) = Except.ok (data (j + k)) ∧
          data (j + k) ≠ ResponseData.null)) →
      (checkLoop env email login domain (items.map some) acc t).1 =
        Except.ok (acc ++ ((items.enumFrom j).filter (fun p => p.1 ∉ F)).map
          (fun p => finalMessageData env p.2 (data p.1))) ∧
      (checkLoop env email login domain (items.map some) acc t).2.requests =
        t.requests ++ items.map (fun m => Request.readMessage login domain m.id) := by
  intro items
  induction items with
  | nil => intro acc t j _; simp [checkLoop]
  | cons item rest ih =>
    intro acc t j h
    have h0 := h 0 item (by simp)
    have hreq := readMessageTry_requests env email login domain item t
    have hrest : ∀ (t1 : Trace), t1.requests = t.requests ++
        [Request.readMessage login domain item.id] → ∀ k m, rest[k]? = some m →
        (j + 1 + k ∈ F → (∃ e, env.get (t1.requests.length + k)
            (Request.readMessage login domain m.id) = Except.error e) ∨
          env.get (t1.requests.length + k)
            (Request.readMessage login domain m.id) = Except.ok ResponseData.null) ∧
        (j + 1 + k ∉ F → env.get (t1.requests.length + k)
            (Request.readMessage login domain m.id) = Except.ok (data (j + 1 + k)) ∧
          data (j + 1 + k) ≠ ResponseData.null) := by
      intro t1 ht1 k m hk
      have := h (k + 1) m (by simpa using hk)
      have e1 : t1.requests.length + k = t.requests.length + (k + 1) := by
        rw [ht1]; simp; omega
      have e2 : j + 1 + k = j + (k + 1) := by omega
      rw [e1, e2]
      exact this
    rcases hr : readMessageTry env email login domain (some item) t with ⟨r, t1⟩
    rw [hr] at hreq
    simp only at hreq
    by_cases hj : j ∈ F
    · obtain ⟨e, he⟩ := readMessageTry_fail env email login domain item t
        (by simpa using h0.1 (by simpa using hj))
      rw [hr] at he
      simp only at he
      subst he
      rw [List.map_cons, checkLoop_cons_error env email login domain item _ acc t t1 e hr]
      have := ih acc { t1 with log := t1.log ++ [LogLine.messageError item.id email e] } (j + 1)
        (hrest _ hreq)
      rw [this.1, this.2]
      simp [List.enumFrom, hj, hreq]
    · have hd := h0.2 (by simpa using hj)
      have h1 := readMessageTry_ok env email login domain item t (data j)
        (by simpa using hd.1) (by simpa using hd.2)
      rw [hr] at h1
      simp only at h1
      subst h1
      rw [List.map_cons, checkLoop_cons_ok env email login domain _ _ acc t t1 _ hr]
      have := ih (acc ++ [finalMessageData env item (data j)]) t1 (j + 1) (hrest _ hreq)
      rw [this.1, this.2]
      simp [List.enumFrom, hj, hreq]

theorem enum_filter_length (α : Type) (F : Finset Nat) (items : List α)
    (hF : ∀ k ∈ F, k < items.length) :
    (items.enum.filter (fun p => p.1 ∉ F)).length + F.card = items.length := by
  have h1 : (items.enum.filter (fun p => p.1 ∉ F)).length =
      ((List.range items.length).filter (fun k => k ∉ F)).length := by
    rw [← List.enum_map_fst items, List.filter_map, List.length_map]
    rfl
  have h2 : ((List.range items.length).filter (fun k => k ∉ F)).length =
      ((Finset.range items.length).filter (fun k => k ∉ F)).card := rfl
  have h3 : (Finset.range items.length).filter (fun k => k ∉ F) =
      Finset.range items.length \ F := by
    ext k
    simp
  have hsub : F ⊆ Finset.range items.length := by
    intro k hk
    simpa using hF k hk
  rw [h1, h2, h3, Finset.card_sdiff hsub]
  have := Finset.card_le_card hsub
  simp only [Finset.card_range] at this ⊢
  omega

/-- C2 (counterexample). The list request returns one message and its detail request
succeeds, with the payload `null`: no request fails, and the result is the empty array, not
the message of the item. -/
theorem checkEmailAccount_null_body :
    (checkEmailAccount nullBodyEnv (js "box@1secmail.com") emptyTrace).1.toOption = some [] ∧
    (checkEmailAccount nullBodyEnv (js "box@1secmail.com") emptyTrace).2.requests =
      [Request.getMessages (js "box") (js "1secmail.com"),
        Request.readMessage (js "box") (js "1secmail.com") 1] ∧
    (∀ n req e, nullBodyEnv.get n req ≠ Except.error e) := by
  refine ⟨by decide, by decide, ?_⟩
  intro n req e h
  cases req <;> simp [nullBodyEnv] at h

/-- A `null` element of the list payload ends the whole poll: the inner `catch` throws
when it logs `msg.id`, the outer `catch` returns the empty array, and the message already
read and the items that follow are lost. -/
theorem checkEmailAccount_null_item :
    (checkEmailAccount nullItemEnv (js "box@1secmail.com") emptyTrace).1.toOption = some [] ∧
    (checkEmailAccount nullItemEnv (js "box@1secmail.com") emptyTrace).2.requests =
      [Request.getMessages (js "box") (js "1secmail.com"),
        Request.readMessage (js "box") (js "1secmail.com") 1] := by
  decide

/-- C2 (amended). When the list request returns `n` message headers (no `null` element)
and the detail fetch fails for exactly the items whose positions are in `F` (its request is
rejected, or its payload is `null`), `checkEmailAccount` does not throw and returns the
`n - |F|` messages built from the other items, in the provider's order. -/
theorem checkEmailAccount_omits_failed_details (env : Env) (email : JSString) (t : Trace)
    (items : List ListItem) (F : Finset Nat) (data : Nat → ResponseData)
    (hlist : env.get t.requests.length
      (Request.getMessages (usernameOf email) (domainOf email)) =
        Except.ok (ResponseData.array (items.map some)))
    (hF : ∀ k ∈ F, k < items.length)
    (hfail : ∀ k item, items[k]? = some item → k ∈ F →
      (∃ e, env.get (t.requests.length + 1 + k)
        (Request.readMessage (usernameOf email) (domainOf email) item.id) = Except.error e) ∨
      env.get (t.requests.length + 1 + k)
        (Request.readMessage (usernameOf email) (domainOf email) item.id) =
          Except.ok ResponseData.null)
    (hok : ∀ k item, items[k]? = some item → k ∉ F →
      env.get (t.requests.length + 1 + k)
        (Request.readMessage (usernameOf email) (domainOf email) item.id) =
          Except.ok (data k) ∧ data k ≠ ResponseData.null) :
    ∃ messages, (checkEmailAccount env email t).1 = Except.ok messages ∧
      messages = (items.enum.filter (fun p => p.1 ∉ F)).map
        (fun p => finalMessageData env p.2 (data p.1)) ∧
      messages.length = items.length - F.card := by
  have hloop := checkLoop_spec env email (usernameOf email) (domainOf email) F data items []
    { t with requests := t.requests ++
        [Request.getMessages (usernameOf email) (domainOf email)] } 0
    (by
      intro k item hk
      have e1 : (t.requests ++ [Request.getMessages (usernameOf email)
          (domainOf email)]).length + k = t.requests.length + 1 + k := by simp
      simp only [e1, Nat.zero_add]
      exact ⟨hfail k item hk, hok k item hk⟩)
  refine ⟨_, ?_, rfl, ?_⟩
  · have h1 := hloop.1
    rcases hc : checkLoop env email (usernameOf email) (domainOf email) (items.map some) []
      { t with requests := t.requests ++
        [Request.getMessages (usernameOf email) (domainOf email)] } with ⟨r, t2⟩
    rw [hc] at h1
    simp only at h1
    subst h1
    simp only [checkEmailAccount, checkEmailAccountTry, axiosGet, hlist, hc]
    simp [List.enum]
  · have := enum_filter_length ListItem F items hF
    simp only [List.length_map]
    omega

/-- C2 (witness). Three items, the detail request of the second one fails. -/
theorem checkEmailAccount_omits_failed_details_witness :
    ((checkEmailAccount sampleEnv (js "box@1secmail.com") emptyTrace).1.toOption.map
      (List.map MessageData.id) = some [1, 3]) ∧
    ∃ messages, (checkEmailAccount sampleEnv (js "box@1secmail.com") emptyTrace).1 =
        Except.ok messages ∧
      messages = (sampleItems.enum.filter (fun p => p.1 ∉ ({1} : Finset Nat))).map
        (fun p => finalMessageData sampleEnv p.2 (ResponseData.body (some (js "text")) none)) ∧
      messages.length = sampleItems.length - ({1} : Finset Nat).card :=
  And.intro (by decide) <|
  checkEmailAccount_omits_failed_details sampleEnv (js "box@1secmail.com") emptyTrace
    sampleItems {1} (fun _ => ResponseData.body (some (js "text")) none) rfl
    (by decide)
    (by
      intro k msg hk hF
      have hk1 : k = 1 := by simpa using hF
      subst hk1
      have hm : msg = ⟨2, js "b@shop.example", some (js "Hello"), js "2024-01-01 10:01:00"⟩ := by
        simpa [sampleItems] using hk.symm
      subst hm
      exact Or.inl ⟨_, rfl⟩)
    (by
      intro k msg hk hF
      have hk1 : k ≠ 1 := by simpa using hF
      match k, hk, hk1 with
      | 0, hk, _ =>
        have hm : msg = sampleItems.get ⟨0, by decide⟩ := by simpa [sampleItems] using hk.symm
        subst hm
        exact ⟨rfl, by intro h; cases h⟩
      | 2, hk, _ =>
        have hm : msg = sampleItems.get ⟨2, by decide⟩ := by simpa [sampleItems] using hk.symm
        subst hm
        exact ⟨rfl, by intro h; cases h⟩
      | k + 3, hk, _ => simp [sampleItems] at hk)

/-- C9. For every address, with or without `@`, and every behaviour of the provider,
`checkEmailAccount` returns an array and never throws.  When the list request is rejected
(transport error, timeout) or its payload is not an array, the result is the empty array
and the list request is the only request issued. -/
theorem checkEmailAccount_never_throws (env : Env) (email : JSString) (t : Trace) :
    (∃ messages, (checkEmailAccount env email t).1 = Except.ok messages) ∧
    ((∀ items, env.get t.requests.length
        (Request.getMessages (usernameOf email) (domainOf email)) ≠
          Except.ok (ResponseData.array items)) →
      (checkEmailAccount env email t).1 = Except.ok [] ∧
      (checkEmailAccount env email t).2.requests =
        t.requests ++ [Request.getMessages (usernameOf email) (domainOf email)]) := by
  constructor
  · unfold checkEmailAccount
    rcases checkEmailAccountTry env email t with ⟨r, t1⟩
    cases r with
    | ok messages => exact ⟨messages, rfl⟩
    | error e => exact ⟨[], rfl⟩
  · intro h
    unfold checkEmailAccount checkEmailAccountTry axiosGet
    cases hg : env.get t.requests.length
        (Request.getMessages (usernameOf email) (domainOf email)) with
    | error e => simp [hg]
    | ok data =>
      cases data with
      | array items => exact absurd hg (h items)
      | body a b => simp [hg]
      | null => simp [hg]
      | other => simp [hg]

/-- C9 (witness). An address without `@` and a provider that is down. -/
theorem checkEmailAccount_never_throws_witness :
    (∃ messages, (checkEmailAccount downEnv (js "no-at-sign") emptyTrace).1 =
      Except.ok messages) ∧
    ((∀ items, downEnv.get emptyTrace.requests.length
        (Request.getMessages (usernameOf (js "no-at-sign")) (domainOf (js "no-at-sign"))) ≠
          Except.ok (ResponseData.array items)) ∧
      (checkEmailAccount downEnv (js "no-at-sign") emptyTrace).1 = Except.ok [] ∧
      (checkEmailAccount downEnv (js "no-at-sign") emptyTrace).2.requests =
        [Request.getMessages (js "no-at-sign") (js "undefined")]) :=
  ⟨(checkEmailAccount_never_throws downEnv (js "no-at-sign") emptyTrace).1,
    (fun items h => by cases h),
    (checkEmailAccount_never_throws downEnv (js "no-at-sign") emptyTrace).2
      (fun items h => by cases h)⟩

theorem bitLengthAux_zero (fuel : Nat) : bitLengthAux fuel 0 = 0 := by
  cases fuel <;> simp [bitLengthAux]

theorem lt_two_pow_bitLengthAux : ∀ (fuel n : Nat), n ≤ fuel → n < 2 ^ bitLengthAux fuel n := by
  intro fuel
  induction fuel with
  | zero => intro n h; simp [bitLengthAux]; omega
  | succ fuel ih =>
    intro n h
    by_cases hn : n = 0
    · simp [bitLengthAux, hn]
    · have := ih (n / 2) (by omega)
      simp only [bitLengthAux, hn, if_false, pow_succ]
      omega

theorem two_pow_bitLengthAux_le : ∀ (fuel n : Nat), n ≠ 0 → 2 ^ bitLengthAux fuel n ≤ 2 * n := by
  intro fuel
  induction fuel with
  | zero => intro n h; simp [bitLengthAux]; omega
  | succ fuel ih =>
    intro n hn
    simp only [bitLengthAux, hn, if_false, pow_succ]
    by_cases h2 : n / 2 = 0
    · rw [h2, bitLengthAux_zero]
      simp
      omega
    · have := ih (n / 2) h2
      omega

/-- Rounding moves a number by at most half a unit in the last place. -/
theorem roundToDouble_le (N : Nat) (hs : bitLength N - 53 ≠ 0) :
    roundToDouble N ≤ N + 2 ^ (bitLength N - 53 - 1) ∧
      2 ^ (bitLength N - 53 - 1) * 2 ^ 53 ≤ N := by
  have hN : N ≠ 0 := by
    intro h0
    subst h0
    exact hs (by simp [bitLength, bitLengthAux])
  have hlow := two_pow_bitLengthAux_le N N hN
  have hb : bitLength N = (bitLength N - 53 - 1) + 1 + 53 := by omega
  generalize hh : 2 ^ (bitLength N - 53 - 1) = h
  have h2s : 2 ^ (bitLength N - 53) = 2 * h := by
    have : bitLength N - 53 = (bitLength N - 53 - 1) + 1 := by omega
    rw [this, pow_succ, hh]
    omega
  have hpow : 2 ^ bitLengthAux N N = 2 * h * 2 ^ 53 := by
    show 2 ^ bitLength N = _
    rw [hb, pow_add, pow_succ, hh]
    omega
  rw [hpow] at hlow
  have hdm := Nat.div_add_mod N (2 * h)
  have hpos : 0 < h := by rw [← hh]; positivity
  have hr := Nat.mod_lt N (show 0 < 2 * h by omega)
  refine ⟨?_, by omega⟩
  unfold roundToDouble
  simp only [hs, if_false, h2s]
  have e1 : (N / (2 * h) + 1) * (2 * h) = 2 * h * (N / (2 * h)) + 2 * h := by ring
  have e2 : N / (2 * h) * (2 * h) = 2 * h * (N / (2 * h)) := by ring
  have hsub : bitLength N - 53 - 1 = bitLength N - 53 - 1 := rfl
  split
  · next hc =>
    rw [hh] at hc
    rw [e1]
    rcases hc with hc | hc <;> omega
  · rw [e2]
    omega

/-- The product of a double below 1 and a positive integer, rounded, is below the integer:
the index `Math.floor(Math.random() * n)` is in the range of the array. -/
theorem randomIndex_lt (rng : Nat → Nat × Nat) (i n : Nat) (hn : 0 < n) :
    randomIndex rng i n < n := by
  unfold randomIndex
  have hm : randomNumerator rng i < 2 ^ 53 := Nat.mod_lt _ (by positivity)
  have hk : 2 ^ 53 ≤ 2 ^ randomExponent rng i :=
    Nat.pow_le_pow_right (by decide) (by unfold randomExponent; omega)
  generalize randomNumerator rng i = m at hm
  generalize randomExponent rng i = k at hk
  rw [Nat.div_lt_iff_lt_mul (by positivity)]
  have hmn : m * n + n ≤ 2 ^ 53 * n := by
    have : (m + 1) * n ≤ 2 ^ 53 * n := Nat.mul_le_mul_right n hm
    rw [Nat.add_mul, Nat.one_mul] at this
    exact this
  have hkn : 2 ^ 53 * n ≤ n * 2 ^ k := by
    rw [Nat.mul_comm n]
    exact Nat.mul_le_mul_right n hk
  by_cases hs : bitLength (m * n) - 53 = 0
  · have : roundToDouble (m * n) = m * n := by simp [roundToDouble, hs]
    rw [this]
    omega
  · obtain ⟨h1, h2⟩ := roundToDouble_le (m * n) hs
    have h3 : 2 ^ (bitLength (m * n) - 53 - 1) < n := by
      by_contra hge
      have hge' : n ≤ 2 ^ (bitLength (m * n) - 53 - 1) := Nat.le_of_not_lt hge
      have := Nat.mul_le_mul_right (2 ^ 53) hge'
      have e : n * 2 ^ 53 = 2 ^ 53 * n := Nat.mul_comm _ _
      omega
    omega

set_option maxRecDepth 100000 in
/-- The products of the doubles `8756999275442631 / 2^53` and `2573485501354569 / 2^53`
with 36 and 7 round up to 35 and 2, one more than the floor of the exact product; a double
with a small exponent gives index 0. -/
theorem randomIndex_rounds :
    randomIndex (fun _ => (8756999275442631, 0)) 0 36 = 35 ∧
    8756999275442631 * 36 / 2 ^ 53 = 34 ∧
    randomIndex (fun _ => (2573485501354569, 0)) 0 7 = 2 ∧
    2573485501354569 * 7 / 2 ^ 53 = 1 ∧
    randomIndex (fun _ => (2 ^ 53 - 1, 0)) 0 36 = 35 ∧
    randomIndex (fun _ => (2 ^ 53 - 1, 100)) 0 36 = 0 := by
  decide

theorem charText_chars (rng : Nat → Nat × Nat) (k : Nat) :
    ∃ c, charText chars (randomIndex rng k chars.length) = [c] ∧ isLowerAlnum c = true := by
  have hlt : randomIndex rng k chars.length < chars.length :=
    randomIndex_lt rng k chars.length (by decide)
  have hall : ∀ x ∈ chars, isLowerAlnum x = true := by decide
  refine ⟨chars[randomIndex rng k chars.length], ?_, hall _ (List.getElem_mem _)⟩
  simp [charText, List.getElem?_eq_getElem hlt]

theorem appendRandomChars_spec (rng : Nat → Nat × Nat) : ∀ (n : Nat) (result : JSString) (k : Nat),
    ∃ r, (appendRandomChars rng n result k).1 = result ++ r ∧ r.length = n ∧
      (∀ x ∈ r, isLowerAlnum x = true) ∧ (appendRandomChars rng n result k).2 = k + n := by
  intro n
  induction n with
  | zero => intro result k; exact ⟨[], by simp [appendRandomChars]⟩
  | succ n ih =>
    intro result k
    obtain ⟨c, hc, hcl⟩ := charText_chars rng k
    obtain ⟨r, h1, h2, h3, h4⟩ := ih (result ++ [c]) (k + 1)
    refine ⟨c :: r, ?_, by simp [h2], ?_, ?_⟩
    · rw [appendRandomChars, hc, h1]; simp
    · intro x hx
      rcases List.mem_cons.mp hx with rfl | hx
      · exact hcl
      · exact h3 x hx
    · rw [appendRandomChars, hc, h4]; omega

theorem elemText_domains (rng : Nat → Nat × Nat) (k : Nat) :
    elemText DOMAINS (randomIndex rng k DOMAINS.length) ∈ DOMAINS := by
  have hlt : randomIndex rng k DOMAINS.length < DOMAINS.length :=
    randomIndex_lt rng k DOMAINS.length (by decide)
  simp only [elemText, List.getElem?_eq_getElem hlt, template]
  exact List.getElem_mem _

theorem createEmailLoop_spec (rng : Nat → Nat × Nat) (pfx : Option JSString) :
    ∀ (n : Nat) (acc : List JSString) (k : Nat),
      ∃ new, (createEmailLoop rng pfx n acc k).1 = acc ++ new ∧ new.length = n ∧
        ∀ e ∈ new, GeneratedAddress pfx e := by
  intro n
  induction n with
  | zero => intro acc k; exact ⟨[], by simp [createEmailLoop]⟩
  | succ n ih =>
    intro acc k
    obtain ⟨r, h1, h2, h3, h4⟩ :=
      appendRandomChars_spec rng (max ((8 : Int) - ((orElse pfx []).length : Int)) 4).toNat
        (orElse pfx []) k
    have hgen : (generateUsername rng pfx k).1 = orElse pfx [] ++ r := h1
    obtain ⟨new, hn1, hn2, hn3⟩ := ih
      (acc ++ [(generateUsername rng pfx k).1 ++ js "@" ++
        elemText DOMAINS (randomIndex rng (generateUsername rng pfx k).2 DOMAINS.length)])
      ((generateUsername rng pfx k).2 + 1)
    refine ⟨((generateUsername rng pfx k).1 ++ js "@" ++
        elemText DOMAINS (randomIndex rng (generateUsername rng pfx k).2 DOMAINS.length)) :: new,
      ?_, by simp [hn2], ?_⟩
    · rw [createEmailLoop]
      simp only
      rw [hn1]
      simp
    · intro e he
      rcases List.mem_cons.mp he with rfl | he
      · refine ⟨r, _, by rw [hgen], ?_, h3, elemText_domains rng _⟩
        rw [h2]
        omega
      · exact hn3 e he


/-- C3 (counterexample). For the five-character `prefix` `abcde` and `count` 1 the handler
appends four random characters: the local part has nine characters, and the address is not
of the form `[a-z0-9]{4,8}@domain`. -/
theorem createEmail_local_part_of_nine :
    (createEmail (fun _ => (0, 0)) (some (js "abcde")) (some 1) 0).emails =
      [js "abcdeaaaa@1secmail.com"] ∧
    ¬ ∃ loc d, js "abcdeaaaa@1secmail.com" = loc ++ js "@" ++ d ∧ 4 ≤ loc.length ∧
      loc.length ≤ 8 ∧ (∀ x ∈ loc, isLowerAlnum x = true) ∧ d ∈ DOMAINS := by
  refine ⟨by decide, ?_⟩
  rintro ⟨loc, d, he, -, h8, -, -⟩
  have h64 : (js "abcdeaaaa@1secmail.com")[loc.length]? = some 64 := by
    rw [he]
    have : js "@" = [64] := by decide
    rw [this, List.append_assoc, List.getElem?_append_right (Nat.le_refl _)]
    simp
  generalize loc.length = n at h8 h64
  interval_cases n <;> revert h64 <;> decide

/-- C3 (amended). For every `prefix` made of characters `[a-z0-9]` (absent and empty
included), every `count` and every outcome of the random choices, the handler answers with
exactly `count` addresses (one when `count` is absent).  Each address is a local part, `@`
and one of the 7 entries of `DOMAINS`; the local part is the `prefix` followed by
`max(8 - prefix.length, 4)` random characters, so it consists of characters `[a-z0-9]` and
its length is `max(8, prefix.length + 4)`: 8 for a `prefix` of at most 4 characters. -/
theorem createEmail_addresses (rng : Nat → Nat × Nat) (pfx : Option JSString) (count : Option Nat)
    (k : Nat) (hp : ∀ p, pfx = some p → ∀ x ∈ p, isLowerAlnum x = true) :
    (createEmail rng pfx count k).status = 200 ∧
    (createEmail rng pfx count k).success = true ∧
    (createEmail rng pfx count k).emails.length = count.getD 1 ∧
    ∀ e ∈ (createEmail rng pfx count k).emails, ∃ loc d,
      e = loc ++ js "@" ++ d ∧ orElse pfx [] <+: loc ∧
      loc.length = max 8 ((orElse pfx []).length + 4) ∧
      (∀ x ∈ loc, isLowerAlnum x = true) ∧ d ∈ DOMAINS := by
  obtain ⟨new, h1, h2, h3⟩ := createEmailLoop_spec rng pfx (count.getD 1) [] k
  have hem : (createEmail rng pfx count k).emails = new := by
    simpa [createEmail] using h1
  refine ⟨rfl, rfl, by rw [hem, h2], ?_⟩
  intro e he
  rw [hem] at he
  obtain ⟨r, d, rfl, hr, hrc, hd⟩ := h3 e he
  have hpc : ∀ x ∈ orElse pfx [], isLowerAlnum x = true := by
    intro x hx
    cases pfx with
    | none => simp [orElse] at hx
    | some p =>
      have hp' := hp p rfl
      by_cases hnil : p = []
      · simp [orElse, hnil] at hx
      · simp only [orElse, hnil, if_false] at hx
        exact hp' x hx
  refine ⟨orElse pfx [] ++ r, d, rfl, List.prefix_append _ _, ?_, ?_, hd⟩
  · rw [List.length_append, hr]
    omega
  · intro x hx
    rcases List.mem_append.mp hx with hx | hx
    · exact hpc x hx
    · exact hrc x hx

/-- C3 (witness). The request with `prefix` `abc` and `count` 2. -/
theorem createEmail_addresses_witness :
    (∀ p, some (js "abc") = some p → ∀ x ∈ p, isLowerAlnum x = true) ∧
    (createEmail (fun k => (k * 2 ^ 50, 0)) (some (js "abc")) (some 2) 0).emails =
      [js "abcaejns@wwjmp.com", js "abc15aej@1secmail.net"] ∧
    (createEmail (fun k => (k * 2 ^ 50, 0)) (some (js "abc")) (some 2) 0).emails.length = 2 ∧
    ∀ e ∈ (createEmail (fun k => (k * 2 ^ 50, 0)) (some (js "abc")) (some 2) 0).emails, ∃ loc d,
      e = loc ++ js "@" ++ d ∧ js "abc" <+: loc ∧ loc.length = 8 ∧
      (∀ x ∈ loc, isLowerAlnum x = true) ∧ d ∈ DOMAINS :=
  have hp : ∀ p, some (js "abc") = some p → ∀ x ∈ p, isLowerAlnum x = true := by
    intro p h
    cases h
    decide
  ⟨hp, by decide,
    (createEmail_addresses (fun k => (k * 2 ^ 50, 0)) (some (js "abc")) (some 2) 0 hp).2.2.1,
    (createEmail_addresses (fun k => (k * 2 ^ 50, 0)) (some (js "abc")) (some 2) 0 hp).2.2.2⟩


theorem mapGet_mapSet_self {α : Type} (k : JSString) (v : α) :
    ∀ m : List (JSString × α), mapGet k (mapSet k v m) = some v := by
  intro m
  induction m with
  | nil => simp [mapSet, mapGet]
  | cons p m ih =>
    obtain ⟨k', v'⟩ := p
    by_cases h : k' = k
    · simp [mapSet, mapGet, h]
    · simp [mapSet, mapGet, h, ih]

theorem mapGet_mapSet_ne {α : Type} (k k' : JSString) (v : α) (hne : k' ≠ k) :
    ∀ m : List (JSString × α), mapGet k' (mapSet k v m) = mapGet k' m := by
  intro m
  induction m with
  | nil => simp [mapSet, mapGet, Ne.symm hne]
  | cons p m ih =>
    obtain ⟨k1, v1⟩ := p
    by_cases h : k1 = k
    · subst h
      simp [mapSet, mapGet, Ne.symm hne]
    · by_cases h' : k1 = k'
      · subst h'
        simp [mapSet, mapGet, h]
      · simp [mapSet, mapGet, h, h', ih]

theorem mapGet_mapDelete_self {α : Type} (k : JSString) :
    ∀ m : List (JSString × α), mapGet k (mapDelete k m) = none := by
  intro m
  induction m with
  | nil => rfl
  | cons p m ih =>
    obtain ⟨k1, v1⟩ := p
    by_cases h : k1 = k
    · simpa [mapDelete, h] using ih
    · have : mapDelete k ((k1, v1) :: m) = (k1, v1) :: mapDelete k m := by
        simp [mapDelete, h]
      rw [this]
      simp [mapGet, h, ih]

theorem mapGet_mapDelete_ne {α : Type} (k k' : JSString) (hne : k' ≠ k) :
    ∀ m : List (JSString × α), mapGet k' (mapDelete k m) = mapGet k' m := by
  intro m
  induction m with
  | nil => rfl
  | cons p m ih =>
    obtain ⟨k1, v1⟩ := p
    by_cases h : k1 = k
    · subst h
      have : mapDelete k1 ((k1, v1) :: m) = mapDelete k1 m := by simp [mapDelete]
      rw [this, ih]
      simp [mapGet, Ne.symm hne]
    · have : mapDelete k ((k1, v1) :: m) = (k1, v1) :: mapDelete k m := by
        simp [mapDelete, h]
      rw [this]
      by_cases h' : k1 = k'
      · simp [mapGet, h']
      · simp [mapGet, h', ih]

theorem start_timers (email : JSString) (cb : Option Nat) (s : Scheduler) :
    (startEmailChecking email cb s).timers =
      clearOpt (mapGet email s.activeCheckers) s.timers ++ [⟨s.nextTimer, email, cb⟩] := by
  unfold startEmailChecking mapHas
  cases h : mapGet email s.activeCheckers <;> simp [setInterval, clearInterval, clearOpt]

theorem start_activeCheckers (email : JSString) (cb : Option Nat) (s : Scheduler) :
    (startEmailChecking email cb s).activeCheckers =
      mapSet email s.nextTimer s.activeCheckers := by
  unfold startEmailChecking mapHas
  cases h : mapGet email s.activeCheckers <;> simp [setInterval, clearInterval]

theorem start_nextTimer (email : JSString) (cb : Option Nat) (s : Scheduler) :
    (startEmailChecking email cb s).nextTimer = s.nextTimer + 1 := by
  unfold startEmailChecking mapHas
  cases h : mapGet email s.activeCheckers <;> simp [setInterval, clearInterval]

theorem start_inflight (email : JSString) (cb : Option Nat) (s : Scheduler) :
    (startEmailChecking email cb s).inflight = s.inflight ∧
      (startEmailChecking email cb s).invoked = s.invoked := by
  unfold startEmailChecking mapHas
  cases h : mapGet email s.activeCheckers <;> simp [setInterval, clearInterval]

theorem stop_timers (email : JSString) (s : Scheduler) :
    (stopEmailChecking email s).timers = clearOpt (mapGet email s.activeCheckers) s.timers := by
  unfold stopEmailChecking mapHas
  cases h : mapGet email s.activeCheckers <;> simp [clearInterval, clearOpt]

theorem stop_inflight (email : JSString) (s : Scheduler) :
    (stopEmailChecking email s).inflight = s.inflight ∧
      (stopEmailChecking email s).invoked = s.invoked ∧
      (stopEmailChecking email s).nextTimer = s.nextTimer := by
  unfold stopEmailChecking mapHas
  cases h : mapGet email s.activeCheckers <;> simp [clearInterval]

theorem mapGet_stop_self (email : JSString) (s : Scheduler) :
    mapGet email (stopEmailChecking email s).activeCheckers = none := by
  unfold stopEmailChecking mapHas
  cases h : mapGet email s.activeCheckers with
  | none => simpa using h
  | some id => simpa [clearInterval] using mapGet_mapDelete_self email s.activeCheckers

theorem mapGet_stop_ne (email e : JSString) (hne : e ≠ email) (s : Scheduler) :
    mapGet e (stopEmailChecking email s).activeCheckers = mapGet e s.activeCheckers := by
  unfold stopEmailChecking mapHas
  cases h : mapGet email s.activeCheckers with
  | none => simp
  | some id => simpa [clearInterval] using mapGet_mapDelete_ne email e hne s.activeCheckers

theorem clearOpt_subset (old : Option Nat) (ts : List Timer) : ∀ t ∈ clearOpt old ts, t ∈ ts := by
  intro t ht
  cases old with
  | none => exact ht
  | some id => exact (List.mem_filter.mp ht).1

theorem clearOpt_sublist (old : Option Nat) (ts : List Timer) :
    List.Sublist (clearOpt old ts) ts := by
  cases old with
  | none => exact List.Sublist.refl _
  | some id => exact List.filter_sublist _

/-- Among tracked timers, clearing the timer stored under an address leaves no timer that
polls this address. -/
theorem clearOpt_tracked (s : Scheduler) (h : TimersTracked s) (email : JSString) :
    (clearOpt (mapGet email s.activeCheckers) s.timers).filter (fun t => t.email = email) = [] := by
  rw [List.filter_eq_nil_iff]
  intro t ht hte
  have hmem := clearOpt_subset _ _ t ht
  have hget := h t hmem
  have hte' : t.email = email := by simpa using hte
  rw [hte'] at hget
  rw [hget] at ht
  simp [clearOpt] at ht


theorem schedInv_tracked (s : Scheduler) (h : SchedInv s) : TimersTracked s := by
  intro t ht
  obtain ⟨t0, h1, h2⟩ := h.2.1 t.email (h.2.2 t ht)
  have hmem : t ∈ liveTimersFor t.email s := by
    simp [liveTimersFor, ht]
  rw [h1] at hmem
  rw [List.mem_singleton.mp hmem]
  rw [List.mem_singleton.mp hmem] at h2
  exact h2

theorem liveTimersFor_start_self (s : Scheduler) (h : TimersTracked s) (email : JSString)
    (cb : Option Nat) :
    liveTimersFor email (startEmailChecking email cb s) = [⟨s.nextTimer, email, cb⟩] := by
  unfold liveTimersFor
  rw [start_timers, List.filter_append, clearOpt_tracked s h email]
  simp

theorem tracked_start (s : Scheduler) (h : TimersTracked s)
    (email : JSString) (cb : Option Nat) : TimersTracked (startEmailChecking email cb s) := by
  intro t ht
  rw [start_timers] at ht
  rw [start_activeCheckers]
  rcases List.mem_append.mp ht with ht | ht
  · have hmem := clearOpt_subset _ _ t ht
    by_cases he : t.email = email
    · exfalso
      have := clearOpt_tracked s h email
      rw [List.filter_eq_nil_iff] at this
      exact this t ht (by simpa using he)
    · rw [mapGet_mapSet_ne email t.email _ he]
      exact h t hmem
  · rw [List.mem_singleton.mp ht]
    exact mapGet_mapSet_self _ _ _

theorem distinct_start (s : Scheduler) (hd : TimersDistinct s) (email : JSString)
    (cb : Option Nat) : TimersDistinct (startEmailChecking email cb s) := by
  constructor
  · rw [start_timers, List.map_append, List.nodup_append]
    refine ⟨((clearOpt_sublist _ _).map _).nodup hd.1, by simp, ?_⟩
    intro a ha hb
    simp only [List.map_cons, List.map_nil, List.mem_singleton] at hb
    obtain ⟨t, ht, rfl⟩ := List.mem_map.mp ha
    have := hd.2 t (clearOpt_subset _ _ t ht)
    omega
  · intro t ht
    rw [start_timers] at ht
    rw [start_nextTimer]
    rcases List.mem_append.mp ht with ht | ht
    · have := hd.2 t (clearOpt_subset _ _ t ht)
      omega
    · rw [List.mem_singleton.mp ht]
      simp

theorem distinct_stop (s : Scheduler) (hd : TimersDistinct s) (email : JSString) :
    TimersDistinct (stopEmailChecking email s) := by
  constructor
  · rw [stop_timers]
    exact ((clearOpt_sublist _ _).map _).nodup hd.1
  · intro t ht
    rw [stop_timers] at ht
    rw [(stop_inflight email s).2.2]
    exact hd.2 t (clearOpt_subset _ _ t ht)

/-- Clearing the timer of one address leaves the timers of another address as they are. -/
theorem clearOpt_other (s : Scheduler) (h : SchedInv s) (email e : JSString) (hne : e ≠ email) :
    (clearOpt (mapGet email s.activeCheckers) s.timers).filter (fun t => t.email = e) =
      liveTimersFor e s := by
  unfold liveTimersFor
  cases hold : mapGet email s.activeCheckers with
  | none => rfl
  | some id =>
    simp only [clearOpt]
    rw [List.filter_filter]
    apply List.filter_congr
    intro t ht
    by_cases hte : t.email = e
    · have htr := schedInv_tracked s h t ht
      have hid : t.id ≠ id := by
        intro hid
        have hhas : mapHas email s.activeCheckers = true := by simp [mapHas, hold]
        obtain ⟨t0, h1, h2⟩ := h.2.1 email hhas
        have ht0 : t0 ∈ liveTimersFor email s := by rw [h1]; simp
        have ht0' := List.mem_filter.mp ht0
        rw [hold] at h2
        have hids : t.id = t0.id := by
          rw [hid]
          exact Option.some.inj h2
        have := List.inj_on_of_nodup_map h.1.1 ht ht0'.1 hids
        rw [this] at hte
        have h3 : t0.email = email := by simpa using ht0'.2
        exact hne (hte.symm.trans h3)
      simp [hte, hid]
    · simp [hte]

theorem schedInv_start (s : Scheduler) (h : SchedInv s) (email : JSString) (cb : Option Nat) :
    SchedInv (startEmailChecking email cb s) := by
  have htr := schedInv_tracked s h
  have htr' := tracked_start s htr email cb
  refine ⟨distinct_start s h.1 email cb, ?_, ?_⟩
  · intro e he
    by_cases hee : e = email
    · subst hee
      refine ⟨⟨s.nextTimer, e, cb⟩, liveTimersFor_start_self s htr e cb, ?_⟩
      rw [start_activeCheckers]
      exact mapGet_mapSet_self _ _ _
    · rw [start_activeCheckers] at he ⊢
      unfold mapHas at he
      rw [mapGet_mapSet_ne email e _ hee] at he ⊢
      obtain ⟨t0, h1, h2⟩ := h.2.1 e he
      refine ⟨t0, ?_, h2⟩
      unfold liveTimersFor
      rw [start_timers, List.filter_append, clearOpt_other s h email e hee, h1]
      simp [Ne.symm hee]
  · intro t ht
    have := htr' t ht
    simp [mapHas, this]

theorem schedInv_stop (s : Scheduler) (h : SchedInv s) (email : JSString) :
    SchedInv (stopEmailChecking email s) := by
  have htr := schedInv_tracked s h
  have hne_of : ∀ t ∈ (stopEmailChecking email s).timers, t.email ≠ email := by
    intro t ht hte
    rw [stop_timers] at ht
    have := clearOpt_tracked s htr email
    rw [List.filter_eq_nil_iff] at this
    exact this t ht (by simpa using hte)
  refine ⟨distinct_stop s h.1 email, ?_, ?_⟩
  · intro e he
    have hee : e ≠ email := by
      intro hee
      subst hee
      simp [mapHas, mapGet_stop_self] at he
    unfold mapHas at he
    rw [mapGet_stop_ne email e hee] at he ⊢
    obtain ⟨t0, h1, h2⟩ := h.2.1 e he
    refine ⟨t0, ?_, h2⟩
    unfold liveTimersFor
    rw [stop_timers, clearOpt_other s h email e hee, h1]
  · intro t ht
    have hne := hne_of t ht
    rw [stop_timers] at ht
    have := htr t (clearOpt_subset _ _ t ht)
    simp [mapHas, mapGet_stop_ne email t.email hne, this]

theorem schedInv_empty : SchedInv emptyScheduler := by
  refine ⟨⟨by simp [emptyScheduler], by simp [emptyScheduler]⟩, ?_, by simp [emptyScheduler]⟩
  intro e he
  simp [emptyScheduler, mapHas, mapGet] at he

/-- C4. From a state in which every live timer is the value stored in `activeCheckers`
under its address, two calls of `startEmailChecking` for an address in succession leave
exactly one live timer for it: the second one, which is the value stored under the address.
The invariant `SchedInv` (each tracked address has exactly one live timer, the one stored
under it, and no live timer is untracked) is preserved by `startEmailChecking` and by
`stopEmailChecking`. -/
theorem startEmailChecking_one_timer (s : Scheduler) (email : JSString) (cb1 cb2 : Option Nat) :
    (TimersTracked s →
      liveTimersFor email (startEmailChecking email cb2 (startEmailChecking email cb1 s)) =
        [⟨s.nextTimer + 1, email, cb2⟩] ∧
      mapGet email (startEmailChecking email cb2 (startEmailChecking email cb1 s)).activeCheckers
        = some (s.nextTimer + 1)) ∧
    (SchedInv s → SchedInv (startEmailChecking email cb1 s) ∧
      SchedInv (stopEmailChecking email s)) := by
  constructor
  · intro h
    have h1 : liveTimersFor email (startEmailChecking email cb1 s) =
        [⟨s.nextTimer, email, cb1⟩] := liveTimersFor_start_self s h email cb1
    constructor
    · unfold liveTimersFor at h1 ⊢
      rw [start_timers, start_activeCheckers, mapGet_mapSet_self, start_nextTimer,
        List.filter_append]
      simp only [clearOpt]
      rw [List.filter_filter]
      have : (startEmailChecking email cb1 s).timers.filter
          (fun a => (decide (a.email = email) && decide (a.id ≠ s.nextTimer))) = [] := by
        rw [List.filter_eq_nil_iff]
        intro t ht hp
        simp only [Bool.and_eq_true, decide_eq_true_eq] at hp
        have hin : t ∈ (startEmailChecking email cb1 s).timers.filter
            (fun t => t.email = email) := by
          rw [List.mem_filter]
          exact ⟨ht, by simpa using hp.1⟩
        rw [h1] at hin
        rw [List.mem_singleton.mp hin] at hp
        exact hp.2 rfl
      rw [this]
      simp
    · rw [start_activeCheckers, start_nextTimer]
      exact mapGet_mapSet_self _ _ _
  · intro h
    exact ⟨schedInv_start s h email cb1, schedInv_stop s h email⟩


/-- C4 (witness). A scheduler that already tracks another address. -/
theorem startEmailChecking_one_timer_witness :
    (TimersTracked sampleScheduler ∧
      liveTimersFor (js "box@1secmail.com")
        (startEmailChecking (js "box@1secmail.com") (some 2)
          (startEmailChecking (js "box@1secmail.com") (some 1) sampleScheduler)) =
        [⟨2, js "box@1secmail.com", some 2⟩] ∧
      mapGet (js "box@1secmail.com")
        (startEmailChecking (js "box@1secmail.com") (some 2)
          (startEmailChecking (js "box@1secmail.com") (some 1) sampleScheduler)).activeCheckers
        = some 2) ∧
    (SchedInv sampleScheduler ∧
      SchedInv (startEmailChecking (js "box@1secmail.com") (some 1) sampleScheduler) ∧
      SchedInv (stopEmailChecking (js "box@1secmail.com") sampleScheduler)) :=
  have hinv : SchedInv sampleScheduler := schedInv_start _ schedInv_empty _ _
  ⟨⟨schedInv_tracked _ hinv,
      (startEmailChecking_one_timer sampleScheduler (js "box@1secmail.com") (some 1)
        (some 2)).1 (schedInv_tracked _ hinv)⟩,
    hinv,
    (startEmailChecking_one_timer sampleScheduler (js "box@1secmail.com") (some 1)
      (some 2)).2 hinv⟩

theorem filter_eraseIdx_length {α : Type} (p : α → Bool) : ∀ (l : List α) (i : Nat) (x : α),
    l[i]? = some x →
      ((l.eraseIdx i).filter p).length + (if p x then 1 else 0) = (l.filter p).length := by
  intro l
  induction l with
  | nil => intro i x h; simp at h
  | cons a l ih =>
    intro i x h
    cases i with
    | zero =>
      simp only [List.getElem?_cons_zero, Option.some.injEq] at h
      subst h
      cases hp : p a <;> simp [List.filter, hp]
    | succ i =>
      have := ih i x (by simpa using h)
      cases hp : p a <;> simp [List.filter, hp] <;> omega

theorem liveTimersFor_stop_self (s : Scheduler) (h : TimersTracked s) (email : JSString) :
    liveTimersFor email (stopEmailChecking email s) = [] := by
  unfold liveTimersFor
  rw [stop_timers]
  exact clearOpt_tracked s h email

/-- One step that is not a start of `email` creates no timer and no waiting run for it, and
calls its callback only to end one of its waiting runs. -/
theorem schedStep_stopped (email : JSString) (s : Scheduler) (ev : SchedEvent)
    (hlive : liveTimersFor email s = []) (hev : ∀ cb, ev ≠ SchedEvent.start email cb) :
    liveTimersFor email (schedStep s ev) = [] ∧
    invokedFor email s <+: invokedFor email (schedStep s ev) ∧
    (invokedFor email (schedStep s ev)).length + (inflightFor email (schedStep s ev)).length ≤
      (invokedFor email s).length + (inflightFor email s).length := by
  cases ev with
  | start e cb =>
    have hne : e ≠ email := by
      intro h
      subst h
      exact hev cb rfl
    simp only [schedStep]
    refine ⟨?_, ?_, ?_⟩
    · unfold liveTimersFor at hlive ⊢
      rw [start_timers, List.filter_append]
      have h1 : (clearOpt (mapGet e s.activeCheckers) s.timers).filter
          (fun t => t.email = email) = [] := by
        rw [List.filter_eq_nil_iff] at hlive ⊢
        intro t ht
        exact hlive t (clearOpt_subset _ _ t ht)
      rw [h1]
      simp [hne]
    · unfold invokedFor
      rw [(start_inflight e cb s).2]
    · unfold invokedFor inflightFor
      rw [(start_inflight e cb s).2, (start_inflight e cb s).1]
  | stop e =>
    simp only [schedStep]
    refine ⟨?_, ?_, ?_⟩
    · unfold liveTimersFor at hlive ⊢
      rw [stop_timers]
      rw [List.filter_eq_nil_iff] at hlive ⊢
      intro t ht
      exact hlive t (clearOpt_subset _ _ t ht)
    · unfold invokedFor
      rw [(stop_inflight e s).2.1]
    · unfold invokedFor inflightFor
      rw [(stop_inflight e s).2.1, (stop_inflight e s).1]
  | fire id =>
    simp only [schedStep, timerFire]
    cases hf : s.timers.find? (fun t => t.id = id) with
    | none => exact ⟨hlive, List.prefix_refl _, Nat.le_refl _⟩
    | some t =>
      have hmem : t ∈ s.timers := List.mem_of_find?_eq_some hf
      have hne : t.email ≠ email := by
        intro h
        have : t ∈ liveTimersFor email s := by simp [liveTimersFor, hmem, h]
        rw [hlive] at this
        simp at this
      refine ⟨hlive, List.prefix_refl _, ?_⟩
      simp [invokedFor, inflightFor, List.filter_append, hne]
  | done i messages =>
    simp only [schedStep, fetchDone]
    cases hi : s.inflight[i]? with
    | none => exact ⟨hlive, List.prefix_refl _, Nat.le_refl _⟩
    | some tick =>
      have hcount := filter_eraseIdx_length (fun t : Tick => decide (t.email = email))
        s.inflight i tick hi
      simp only
      by_cases hm : messages.length > 0
      · cases hcb : tick.callback with
        | none =>
          simp only [hm, if_true]
          refine ⟨hlive, List.prefix_refl _, ?_⟩
          simp only [invokedFor, inflightFor]
          split at hcount <;> omega
        | some cb =>
          simp only [hm, if_true]
          refine ⟨hlive, ?_, ?_⟩
          · simp only [invokedFor, List.filter_append]
            exact List.prefix_append _ _
          · simp only [invokedFor, inflightFor, List.filter_append, List.length_append]
            by_cases he : tick.email = email
            · simp only [he, decide_True, if_true] at hcount
              simp [List.filter, he]
              omega
            · simp only [he, decide_False] at hcount
              simp [List.filter, he]
              omega
      · simp only [hm, if_false]
        refine ⟨hlive, List.prefix_refl _, ?_⟩
        simp only [invokedFor, inflightFor]
        split at hcount <;> omega

theorem schedRun_stopped (email : JSString) : ∀ (events : List SchedEvent) (s : Scheduler),
    liveTimersFor email s = [] → (∀ cb, SchedEvent.start email cb ∉ events) →
    liveTimersFor email (schedRun s events) = [] ∧
    invokedFor email s <+: invokedFor email (schedRun s events) ∧
    (invokedFor email (schedRun s events)).length +
        (inflightFor email (schedRun s events)).length ≤
      (invokedFor email s).length + (inflightFor email s).length := by
  intro events
  induction events with
  | nil => intro s h _; exact ⟨h, List.prefix_refl _, Nat.le_refl _⟩
  | cons ev events ih =>
    intro s hlive hno
    obtain ⟨h1, h2, h3⟩ := schedStep_stopped email s ev hlive
      (fun cb h => hno cb (by rw [h]; exact List.mem_cons_self _ _))
    obtain ⟨h4, h5, h6⟩ := ih (schedStep s ev) h1
      (fun cb h => hno cb (List.mem_cons_of_mem _ h))
    exact ⟨h4, h2.trans h5, h6.trans h3⟩

/-- C5 (counterexample). A timer fires and its fetch is in flight when the address is
stopped; the fetch then returns one message, and the callback is called, after the stop. -/
theorem callback_invoked_after_stop :
    (schedRun emptyScheduler
      [SchedEvent.start (js "box@1secmail.com") (some 7), SchedEvent.fire 0,
        SchedEvent.stop (js "box@1secmail.com")]).invoked = [] ∧
    (schedRun emptyScheduler
      [SchedEvent.start (js "box@1secmail.com") (some 7), SchedEvent.fire 0,
        SchedEvent.stop (js "box@1secmail.com"),
        SchedEvent.done 0 [sampleMessage]]).invoked =
      [⟨7, js "box@1secmail.com", [sampleMessage]⟩] := by
  decide

/-- C5 (amended). After `stopEmailChecking(email)`, and until the address is started
again, no timer polls the address, so no new run of its interval function begins; the
callback is called for it at most once for each run that was waiting for its fetch at the
stop, and not at all when there was none. -/
theorem stop_ends_polling (s : Scheduler) (email : JSString) (events : List SchedEvent)
    (h : TimersTracked s) (hno : ∀ cb, SchedEvent.start email cb ∉ events) :
    liveTimersFor email (schedRun (stopEmailChecking email s) events) = [] ∧
    invokedFor email s <+: invokedFor email (schedRun (stopEmailChecking email s) events) ∧
    (invokedFor email (schedRun (stopEmailChecking email s) events)).length ≤
      (invokedFor email s).length + (inflightFor email s).length ∧
    (inflightFor email s = [] →
      invokedFor email (schedRun (stopEmailChecking email s) events) = invokedFor email s) := by
  obtain ⟨h1, h2, h3⟩ := schedRun_stopped email events (stopEmailChecking email s)
    (liveTimersFor_stop_self s h email) hno
  have e1 : invokedFor email (stopEmailChecking email s) = invokedFor email s := by
    unfold invokedFor
    rw [(stop_inflight email s).2.1]
  have e2 : inflightFor email (stopEmailChecking email s) = inflightFor email s := by
    unfold inflightFor
    rw [(stop_inflight email s).1]
  rw [e1] at h2 h3
  rw [e2] at h3
  refine ⟨h1, h2, by omega, ?_⟩
  intro hnone
  rw [hnone] at h3
  simp only [List.length_nil, Nat.add_zero] at h3
  exact (h2.eq_of_length_le (by omega)).symm


/-- C5 (witness). A stop while one fetch is in flight. -/
theorem stop_ends_polling_witness :
    TimersTracked pollingScheduler ∧
    inflightFor (js "box@1secmail.com") pollingScheduler = [⟨js "box@1secmail.com", some 7⟩] ∧
    liveTimersFor (js "box@1secmail.com")
      (schedRun (stopEmailChecking (js "box@1secmail.com") pollingScheduler)
        [SchedEvent.fire 0, SchedEvent.done 0 [sampleMessage], SchedEvent.fire 0]) = [] ∧
    invokedFor (js "box@1secmail.com") pollingScheduler <+:
      invokedFor (js "box@1secmail.com")
        (schedRun (stopEmailChecking (js "box@1secmail.com") pollingScheduler)
          [SchedEvent.fire 0, SchedEvent.done 0 [sampleMessage], SchedEvent.fire 0]) ∧
    (invokedFor (js "box@1secmail.com")
      (schedRun (stopEmailChecking (js "box@1secmail.com") pollingScheduler)
        [SchedEvent.fire 0, SchedEvent.done 0 [sampleMessage], SchedEvent.fire 0])).length ≤
      (invokedFor (js "box@1secmail.com") pollingScheduler).length +
        (inflightFor (js "box@1secmail.com") pollingScheduler).length ∧
    (inflightFor (js "box@1secmail.com") pollingScheduler = [] →
      invokedFor (js "box@1secmail.com")
        (schedRun (stopEmailChecking (js "box@1secmail.com") pollingScheduler)
          [SchedEvent.fire 0, SchedEvent.done 0 [sampleMessage], SchedEvent.fire 0]) =
        invokedFor (js "box@1secmail.com") pollingScheduler) :=
  have ht : TimersTracked pollingScheduler := by
    unfold TimersTracked
    decide
  ⟨ht, by decide,
    stop_ends_polling pollingScheduler (js "box@1secmail.com")
      [SchedEvent.fire 0, SchedEvent.done 0 [sampleMessage], SchedEvent.fire 0] ht
      (by intro cb h; simp at h)⟩


theorem stop_empty (email : JSString) : stopEmailChecking email emptyScheduler = emptyScheduler := by
  simp [stopEmailChecking, emptyScheduler, mapHas, mapGet]

theorem step_scheduler_empty (s : Server) (ev : Event) (h : s.scheduler = emptyScheduler) :
    (step s ev).scheduler = emptyScheduler := by
  cases ev with
  | startRealtime email clientId =>
    simp only [step, startRealtime]
    split <;> exact h
  | deleteEmail email => simp [step, deleteEmail, h, stop_empty]
  | connection ws clientId now => simpa [step, wsConnection] using h
  | message ws data now =>
    simp only [step]
    cases clientOf ws s with
    | none => exact h
    | some clientId => cases data <;> simpa [wsMessage] using h
  | close ws =>
    simp only [step]
    cases clientOf ws s with
    | none => exact h
    | some clientId => simpa [wsClose] using h
  | error ws =>
    simp only [step]
    cases clientOf ws s with
    | none => exact h
    | some clientId => simpa [wsClose] using h
  | sweep now => simpa [step, sweep] using h
  | timerFire id => simp [step, h, timerFire, emptyScheduler]
  | fetchDone i messages => simp [step, h, fetchDone, emptyScheduler]

theorem step_sent (s : Server) (ev : Event) :
    ∀ p ∈ (step s ev).sent, p ∈ s.sent ∨ p.2.isPush = false := by
  intro p hp
  cases ev with
  | startRealtime email clientId =>
    simp only [step, startRealtime] at hp
    split at hp <;> exact Or.inl hp
  | deleteEmail email => exact Or.inl (by simpa [step, deleteEmail] using hp)
  | connection ws clientId now =>
    simp only [step, wsConnection, List.mem_append, List.mem_singleton] at hp
    rcases hp with hp | rfl
    · exact Or.inl hp
    · exact Or.inr rfl
  | message ws data now =>
    simp only [step] at hp
    cases hc : clientOf ws s with
    | none => rw [hc] at hp; exact Or.inl hp
    | some clientId =>
      rw [hc] at hp
      cases data with
      | register email => exact Or.inl (by simpa [wsMessage] using hp)
      | ping =>
        simp only [wsMessage, List.mem_append, List.mem_singleton] at hp
        rcases hp with hp | rfl
        · exact Or.inl hp
        · exact Or.inr rfl
      | other => exact Or.inl (by simpa [wsMessage] using hp)
  | close ws =>
    simp only [step] at hp
    cases hc : clientOf ws s with
    | none => rw [hc] at hp; exact Or.inl hp
    | some clientId => rw [hc] at hp; exact Or.inl (by simpa [wsClose] using hp)
  | error ws =>
    simp only [step] at hp
    cases hc : clientOf ws s with
    | none => rw [hc] at hp; exact Or.inl hp
    | some clientId => rw [hc] at hp; exact Or.inl (by simpa [wsClose] using hp)
  | sweep now => exact Or.inl (by simpa [step, sweep] using hp)
  | timerFire id => exact Or.inl (by simpa [step] using hp)
  | fetchDone i messages => exact Or.inl (by simpa [step] using hp)

theorem run_sent : ∀ (events : List Event) (s : Server),
    ∀ p ∈ (run s events).sent, p ∈ s.sent ∨ p.2.isPush = false := by
  intro events
  induction events with
  | nil => intro s p hp; exact Or.inl hp
  | cons ev events ih =>
    intro s p hp
    rcases ih (step s ev) p hp with h | h
    · exact step_sent s ev p h
    · exact Or.inr h

theorem run_scheduler_empty : ∀ (events : List Event) (s : Server),
    s.scheduler = emptyScheduler → (run s events).scheduler = emptyScheduler := by
  intro events
  induction events with
  | nil => intro s h; exact h
  | cons ev events ih => intro s h; exact ih (step s ev) (step_scheduler_empty s ev h)

theorem mapGet_setEmail (clientId : JSString) (email : Option JSString) :
    ∀ m : List (JSString × Connection),
      mapGet clientId (setEmail clientId email m) =
        (mapGet clientId m).map fun c => { c with email := email } := by
  intro m
  induction m with
  | nil => rfl
  | cons p m ih =>
    obtain ⟨k, c⟩ := p
    by_cases h : k = clientId
    · simp [setEmail, mapGet, h]
    · simp [setEmail, mapGet, h, ih]

/-- C6 (counterexample). Two clients connect and register for one address, real-time
checking is requested for it, and a tick with one message that holds a code is delivered
to the server: no timer exists, and each client has been sent its welcome frame only.
When the scheduler is started by hand for the address with a callback, the tick calls this
callback, and the clients are still sent nothing. -/
theorem registered_clients_get_no_push :
    (registeredFor (js "box@1secmail.com") (run initialServer twoClients)).map Connection.ws
      = [1, 2] ∧
    framesTo 1 (run initialServer twoClients) = [Frame.welcome (js "1700000000000k3j9x0q2a")] ∧
    framesTo 2 (run initialServer twoClients) = [Frame.welcome (js "1700000000500p8f1m4z7c")] ∧
    (run initialServer twoClients).scheduler = emptyScheduler ∧
    (run { run initialServer (twoClients.take 5) with
        scheduler := startEmailChecking (js "box@1secmail.com") (some 7) emptyScheduler }
      (twoClients.drop 5)).scheduler.invoked = [⟨7, js "box@1secmail.com", [sampleMessage]⟩] ∧
    (run { run initialServer (twoClients.take 5) with
        scheduler := startEmailChecking (js "box@1secmail.com") (some 7) emptyScheduler }
      (twoClients.drop 5)).sent =
      [(1, Frame.welcome (js "1700000000000k3j9x0q2a")),
        (2, Frame.welcome (js "1700000000500p8f1m4z7c"))] := by
  decide

/-- C6 (amended). A `register` message records the address on the connection of the
sender and sends nothing.  Whatever happens to the server, every frame it sends is a
welcome or a pong, never a push; and as no handler calls `startEmailChecking`, the
scheduler of the running server stays empty: no timer, no tick, no callback. -/
theorem server_never_pushes (s : Server) (events : List Event) (ws : Nat)
    (clientId : JSString) (email : Option JSString) (now : Nat) :
    (mapGet clientId (wsMessage ws clientId (ClientMessage.register email) now s).connections =
        (mapGet clientId s.connections).map (fun c => { c with email := email }) ∧
      (wsMessage ws clientId (ClientMessage.register email) now s).sent = s.sent) ∧
    (∀ p ∈ (run s events).sent, p ∈ s.sent ∨ p.2.isPush = false) ∧
    (run initialServer events).scheduler = emptyScheduler ∧
    (∀ p ∈ (run initialServer events).sent, p.2.isPush = false) := by
  refine ⟨⟨mapGet_setEmail clientId email s.connections, rfl⟩, run_sent events s,
    run_scheduler_empty events initialServer rfl, ?_⟩
  intro p hp
  rcases run_sent events initialServer p hp with h | h
  · simp [initialServer] at h
  · exact h

/-- C7 (code bug). On a fresh server the handler of start-realtime answers the request for
`box@1secmail.com` with success and the message `Real-time checking started`, and the
address is not tracked afterwards: `activeCheckers` is empty, there is no timer, and the
stats report 0 active accounts. -/
theorem startRealtime_tracks_nothing :
    (startRealtime (some (js "box@1secmail.com")) (some (js "1700000000000k3j9x0q2a"))
      initialServer).1 = ⟨200, true, js "Real-time checking started"⟩ ∧
    mapHas (js "box@1secmail.com")
      (startRealtime (some (js "box@1secmail.com")) (some (js "1700000000000k3j9x0q2a"))
        initialServer).2.scheduler.activeCheckers = false ∧
    (startRealtime (some (js "box@1secmail.com")) (some (js "1700000000000k3j9x0q2a"))
      initialServer).2.scheduler.timers = [] ∧
    (stats (startRealtime (some (js "box@1secmail.com")) (some (js "1700000000000k3j9x0q2a"))
      initialServer).2).activeAccounts = 0 := by
  decide

end TempMail
